import Mathlib

/-!
Verification of the metric normalization and prompt-construction pipeline of
the Meta-Ads campaign-analysis backend (src/backend/meta_client.py,
src/backend/ai_client.py, src/backend/main.py).

Python floats are embedded as exact rationals, Python ints as integers.
Heterogeneous JSON values that can reach the numeric coercions are embedded
as the type PyVal below.
-/

namespace MetaAds

/-- Whitespace as recognized by Python's str.strip and the re module's
backslash-s class (the members that can occur over the Latin ranges this
backend processes). -/
def pSpace (c : Char) : Bool :=
  c = ' ' || c = '\t' || c = '\n' || c = '\r' ||
  c.val = 11 || c.val = 12 ||
  (28 ≤ c.val && c.val ≤ 31) ||
  c.val = 0x85 || c.val = 0xA0 || c.val = 0x1680 ||
  (0x2000 ≤ c.val && c.val ≤ 0x200A) ||
  c.val = 0x2028 || c.val = 0x2029 || c.val = 0x202F ||
  c.val = 0x205F || c.val = 0x3000

/-- A loosely-typed JSON-ish value as found in a raw insight row: the Graph
API returns numbers mostly as strings; fields can also be absent (PyVal.none),
be genuine numbers, or be nested lists (which the numeric coercions reject). -/
inductive PyVal where
  | str (s : String)
  | num (q : ℚ)
  | none
  | list (n : Nat)
  deriving DecidableEq

def digitsVal (ds : List Char) : Nat :=
  ds.foldl (fun n c => n * 10 + (c.toNat - 48)) 0

/-- Model of Python float(s) on a decimal string: optional surrounding
whitespace, optional sign, digits with an optional fractional part.
Anything else fails (returns Option.none), as float() raises ValueError. -/
def parsePyFloat (s : String) : Option ℚ :=
  let l := (s.data.dropWhile pSpace).reverse.dropWhile pSpace |>.reverse
  let (sign, l) : ℚ × List Char :=
    match l with
    | '-' :: rest => (-1, rest)
    | '+' :: rest => (1, rest)
    | _ => (1, l)
  let intPart := l.takeWhile Char.isDigit
  let rest := l.dropWhile Char.isDigit
  match rest with
  | [] =>
      if intPart = [] then Option.none
      else Option.some (sign * (digitsVal intPart : ℚ))
  | '.' :: frac =>
      if frac.all Char.isDigit ∧ ¬(intPart = [] ∧ frac = []) then
        Option.some (sign * ((digitsVal intPart : ℚ) +
          (digitsVal frac : ℚ) / (10 : ℚ) ^ frac.length))
      else Option.none
  | _ => Option.none

/-- Model of Python float(x) over PyVal: numbers pass through, strings are
parsed, None and lists raise (here: Option.none). -/
def pyFloat : PyVal → Option ℚ
  | PyVal.num q => Option.some q
  | PyVal.str s => parsePyFloat s
  | PyVal.none => Option.none
  | PyVal.list _ => Option.none

/-- Truncation toward zero, the behavior of Python int() on a float. -/
def ratTrunc (q : ℚ) : ℤ :=
  if 0 ≤ q then ⌊q⌋ else -⌊-q⌋

/-- meta_client._to_int: int(float(x)), with any exception degrading to 0. -/
def _to_int (x : PyVal) : ℤ :=
  match pyFloat x with
  | Option.some q => ratTrunc q
  | Option.none => 0

/-- meta_client._to_float: float(x), with any exception degrading to 0.0. -/
def _to_float (x : PyVal) : ℚ :=
  match pyFloat x with
  | Option.some q => q
  | Option.none => 0

/-- Round-half-to-even on rationals, the rounding mode of Python's round(). -/
def roundHalfEven (q : ℚ) : ℤ :=
  let f := ⌊q⌋
  let r := q - (f : ℚ)
  if r < 1/2 then f
  else if 1/2 < r then f + 1
  else if f % 2 = 0 then f else f + 1

/-- Python round(x, 4) on the rational embedding of floats. -/
def round4 (q : ℚ) : ℚ :=
  (roundHalfEven (q * 10000) : ℚ) / 10000

/-- Python str.lower over the Basic Latin and Latin-1 letters that this
backend's action-type tags and generated text can contain. -/
def pyLowerChar (c : Char) : Char :=
  if 'A' ≤ c ∧ c ≤ 'Z' then Char.ofNat (c.toNat + 32)
  else if 0xC0 ≤ c.toNat ∧ c.toNat ≤ 0xDE ∧ c.toNat ≠ 0xD7 then Char.ofNat (c.toNat + 32)
  else c

def pyLower (s : String) : String :=
  String.mk (s.data.map pyLowerChar)

/-- Python str.endswith, computed on the character lists. -/
def endsWithL (s post : String) : Bool :=
  s.data.drop (s.data.length - post.data.length) == post.data

/-- One element of a row's actions or action_values list: a dict with an
action_type tag and a value.  A dict missing the value key behaves like
value 0 under _to_int/_to_float, which PyVal.none reproduces. -/
structure ActionEntry where
  action_type : String
  value : PyVal
  deriving DecidableEq

/-- meta_client._is_purchase_type: case-insensitive membership in the allowed
set, or a suffix match on ".purchase" / "_purchase". -/
def _is_purchase_type (action_type : String) : Bool :=
  let at_ := pyLower action_type
  at_ = "purchase" ||
  at_ = "fb_pixel_purchase" ||
  at_ = "offsite_conversion.purchase" ||
  at_ = "offsite_conversion.fb_pixel_purchase" ||
  at_ = "onsite_conversion.purchase" ||
  at_ = "omni_purchase" ||
  endsWithL at_ ".purchase" || endsWithL at_ "_purchase"

def PURCHASE_PRIORITY : List String :=
  ["omni_purchase",
   "offsite_conversion.fb_pixel_purchase",
   "offsite_conversion.purchase",
   "onsite_conversion.purchase",
   "fb_pixel_purchase",
   "purchase"]

/-- The dict {str(a.get("action_type","")).lower(): a for a in actions}
looked up at tag t: later entries overwrite earlier ones, so the lookup
yields the last entry whose lowercased tag equals t. -/
def byTypeGet (actions : List ActionEntry) (t : String) : Option ActionEntry :=
  (actions.filter (fun a => pyLower a.action_type = t)).getLast?

/-- meta_client._pick_purchase_count: first priority tag present wins;
otherwise the fallback sums every purchase-like entry. -/
def _pick_purchase_count (actions : List ActionEntry) : ℤ :=
  match PURCHASE_PRIORITY.findSome? (fun t => byTypeGet actions t) with
  | Option.some a => _to_int a.value
  | Option.none =>
      (actions.filter (fun a => _is_purchase_type a.action_type)).foldl
        (fun total a => total + _to_int a.value) 0

/-- meta_client._pick_purchase_value: same policy over action_values,
with float coercion. -/
def _pick_purchase_value (action_values : List ActionEntry) : ℚ :=
  match PURCHASE_PRIORITY.findSome? (fun t => byTypeGet action_values t) with
  | Option.some a => _to_float a.value
  | Option.none =>
      (action_values.filter (fun a => _is_purchase_type a.action_type)).foldl
        (fun total a => total + _to_float a.value) 0

/-- The first tag of the fixed priority list that is present (lowercased)
among the entries, if any. -/
def firstPriorityTag (actions : List ActionEntry) : Option String :=
  PURCHASE_PRIORITY.find? (fun t => actions.any (fun a => pyLower a.action_type = t))

/-- The spec's wording of the purchase-like predicate, applied to an already
lowercased tag: exact match in the allowed set, or suffix match on
".purchase" / "_purchase". -/
def spec_purchase_like (t : String) : Bool :=
  t = "purchase" ||
  t = "fb_pixel_purchase" ||
  t = "offsite_conversion.purchase" ||
  t = "offsite_conversion.fb_pixel_purchase" ||
  t = "onsite_conversion.purchase" ||
  t = "omni_purchase" ||
  endsWithL t ".purchase" || endsWithL t "_purchase"

/-- A raw insight row as returned by the Graph API: identification keys may
be absent (Option.none), numeric fields are loosely typed, and the actions
and action_values keys hold lists of action entries (the source's
`row.get("actions", []) or []` collapses an absent or null list to []). -/
structure RawRow where
  campaign_id : Option String
  campaign_name : Option String
  adset_id : Option String
  adset_name : Option String
  ad_id : Option String
  ad_name : Option String
  impressions : PyVal
  clicks : PyVal
  spend : PyVal
  cpm : PyVal
  cpc : PyVal
  ctr : PyVal
  actions : List ActionEntry
  action_values : List ActionEntry
  deriving DecidableEq

/-- The normalized campaign metric record produced by normalize_insights. -/
structure NormCampaign where
  campaign_id : String
  campaign_name : String
  impressions : ℤ
  clicks : ℤ
  spend : ℚ
  cpm : ℚ
  cpc : ℚ
  ctr : ℚ
  purchases : ℤ
  purchase_value : ℚ
  roas : ℚ
  deriving DecidableEq

/-- The normalized ad-set metric record of normalize_insights_adset. -/
structure NormAdset where
  adset_id : String
  adset_name : String
  campaign_id : Option String
  impressions : ℤ
  clicks : ℤ
  spend : ℚ
  cpm : ℚ
  cpc : ℚ
  ctr : ℚ
  purchases : ℤ
  purchase_value : ℚ
  roas : ℚ
  deriving DecidableEq

/-- The normalized ad metric record of normalize_insights_ad. -/
structure NormAd where
  ad_id : String
  ad_name : String
  adset_id : Option String
  campaign_id : Option String
  impressions : ℤ
  clicks : ℤ
  spend : ℚ
  cpm : ℚ
  cpc : ℚ
  ctr : ℚ
  purchases : ℤ
  purchase_value : ℚ
  roas : ℚ
  deriving DecidableEq

/-- The recomputed CTR of the source: clicks/impressions*100 when
impressions > 0, else 0. -/
def ctrCalcOf (row : RawRow) : ℚ :=
  if 0 < _to_int row.impressions then
    (_to_int row.clicks : ℚ) / (_to_int row.impressions : ℚ) * 100
  else 0

/-- The body of the loop of meta_client.normalize_insights for one row. -/
def normalizeRowCampaign (row : RawRow) : NormCampaign :=
  let impressions := _to_int row.impressions
  let clicks := _to_int row.clicks
  let spend := _to_float row.spend
  let cpm := _to_float row.cpm
  let cpc := _to_float row.cpc
  let ctr_raw := _to_float row.ctr
  let ctr_calc : ℚ :=
    if 0 < impressions then (clicks : ℚ) / (impressions : ℚ) * 100 else 0
  let ctr := if 0 < ctr_calc then ctr_calc else ctr_raw
  let purchases := _pick_purchase_count row.actions
  let purchase_value := _pick_purchase_value row.action_values
  let roas := if 0 < spend then purchase_value / spend else 0
  { campaign_id := row.campaign_id.getD ""
    campaign_name := row.campaign_name.getD "(sem nome)"
    impressions := impressions
    clicks := clicks
    spend := round4 spend
    cpm := round4 cpm
    cpc := round4 cpc
    ctr := round4 ctr
    purchases := purchases
    purchase_value := round4 purchase_value
    roas := round4 roas }

/-- meta_client.normalize_insights: one output record per raw row, in order. -/
def normalize_insights : List RawRow → List NormCampaign
  | [] => []
  | row :: rest => normalizeRowCampaign row :: normalize_insights rest

/-- The body of the loop of meta_client.normalize_insights_adset. -/
def normalizeRowAdset (row : RawRow) : NormAdset :=
  let impressions := _to_int row.impressions
  let clicks := _to_int row.clicks
  let spend := _to_float row.spend
  let cpm := _to_float row.cpm
  let cpc := _to_float row.cpc
  let ctr_raw := _to_float row.ctr
  let ctr_calc : ℚ :=
    if 0 < impressions then (clicks : ℚ) / (impressions : ℚ) * 100 else 0
  let ctr := if 0 < ctr_calc then ctr_calc else ctr_raw
  let purchases := _pick_purchase_count row.actions
  let purchase_value := _pick_purchase_value row.action_values
  let roas := if 0 < spend then purchase_value / spend else 0
  { adset_id := row.adset_id.getD ""
    adset_name := row.adset_name.getD "(sem nome)"
    campaign_id := row.campaign_id
    impressions := impressions
    clicks := clicks
    spend := round4 spend
    cpm := round4 cpm
    cpc := round4 cpc
    ctr := round4 ctr
    purchases := purchases
    purchase_value := round4 purchase_value
    roas := round4 roas }

def normalize_insights_adset : List RawRow → List NormAdset
  | [] => []
  | row :: rest => normalizeRowAdset row :: normalize_insights_adset rest

/-- The body of the loop of meta_client.normalize_insights_ad. -/
def normalizeRowAd (row : RawRow) : NormAd :=
  let impressions := _to_int row.impressions
  let clicks := _to_int row.clicks
  let spend := _to_float row.spend
  let cpm := _to_float row.cpm
  let cpc := _to_float row.cpc
  let ctr_raw := _to_float row.ctr
  let ctr_calc : ℚ :=
    if 0 < impressions then (clicks : ℚ) / (impressions : ℚ) * 100 else 0
  let ctr := if 0 < ctr_calc then ctr_calc else ctr_raw
  let purchases := _pick_purchase_count row.actions
  let purchase_value := _pick_purchase_value row.action_values
  let roas := if 0 < spend then purchase_value / spend else 0
  { ad_id := row.ad_id.getD ""
    ad_name := row.ad_name.getD "(sem nome)"
    adset_id := row.adset_id
    campaign_id := row.campaign_id
    impressions := impressions
    clicks := clicks
    spend := round4 spend
    cpm := round4 cpm
    cpc := round4 cpc
    ctr := round4 ctr
    purchases := purchases
    purchase_value := round4 purchase_value
    roas := round4 roas }

def normalize_insights_ad : List RawRow → List NormAd
  | [] => []
  | row :: rest => normalizeRowAd row :: normalize_insights_ad rest

/-- Python true division, with the ZeroDivisionError it can raise made
explicit.  Inside normalize_insights both divisions are guarded, so the
error branch is unreachable; making it explicit lets the no-exception
property of Claim C3 be stated. -/
def pyDivE (a b : ℚ) : Except String ℚ :=
  if b = 0 then Except.error "ZeroDivisionError: division by zero"
  else Except.ok (a / b)

/-- normalizeRowCampaign with Python's exception points (the two divisions)
made explicit in the Except monad; the numeric coercions _to_int and
_to_float contain their own try/except and never propagate an error. -/
def normalizeRowCampaignE (row : RawRow) : Except String NormCampaign :=
  let impressions := _to_int row.impressions
  let clicks := _to_int row.clicks
  let spend := _to_float row.spend
  let cpm := _to_float row.cpm
  let cpc := _to_float row.cpc
  let ctr_raw := _to_float row.ctr
  (if 0 < impressions then
      (pyDivE (clicks : ℚ) (impressions : ℚ)).map (fun d => d * 100)
    else Except.ok 0).bind (fun ctr_calc =>
    let ctr := if 0 < ctr_calc then ctr_calc else ctr_raw
    let purchases := _pick_purchase_count row.actions
    let purchase_value := _pick_purchase_value row.action_values
    (if 0 < spend then pyDivE purchase_value spend else Except.ok 0).bind
      (fun roas =>
        Except.ok
          { campaign_id := row.campaign_id.getD ""
            campaign_name := row.campaign_name.getD "(sem nome)"
            impressions := impressions
            clicks := clicks
            spend := round4 spend
            cpm := round4 cpm
            cpc := round4 cpc
            ctr := round4 ctr
            purchases := purchases
            purchase_value := round4 purchase_value
            roas := round4 roas }))

def normalize_insightsE : List RawRow → Except String (List NormCampaign)
  | [] => Except.ok []
  | row :: rest =>
      (normalizeRowCampaignE row).bind (fun r =>
        (normalize_insightsE rest).bind (fun rs => Except.ok (r :: rs)))

/-- normalizeRowAdset with the exception points made explicit. -/
def normalizeRowAdsetE (row : RawRow) : Except String NormAdset :=
  let impressions := _to_int row.impressions
  let clicks := _to_int row.clicks
  let spend := _to_float row.spend
  let cpm := _to_float row.cpm
  let cpc := _to_float row.cpc
  let ctr_raw := _to_float row.ctr
  (if 0 < impressions then
      (pyDivE (clicks : ℚ) (impressions : ℚ)).map (fun d => d * 100)
    else Except.ok 0).bind (fun ctr_calc =>
    let ctr := if 0 < ctr_calc then ctr_calc else ctr_raw
    let purchases := _pick_purchase_count row.actions
    let purchase_value := _pick_purchase_value row.action_values
    (if 0 < spend then pyDivE purchase_value spend else Except.ok 0).bind
      (fun roas =>
        Except.ok
          { adset_id := row.adset_id.getD ""
            adset_name := row.adset_name.getD "(sem nome)"
            campaign_id := row.campaign_id
            impressions := impressions
            clicks := clicks
            spend := round4 spend
            cpm := round4 cpm
            cpc := round4 cpc
            ctr := round4 ctr
            purchases := purchases
            purchase_value := round4 purchase_value
            roas := round4 roas }))

def normalize_insights_adsetE : List RawRow → Except String (List NormAdset)
  | [] => Except.ok []
  | row :: rest =>
      (normalizeRowAdsetE row).bind (fun r =>
        (normalize_insights_adsetE rest).bind (fun rs => Except.ok (r :: rs)))

/-- normalizeRowAd with the exception points made explicit. -/
def normalizeRowAdE (row : RawRow) : Except String NormAd :=
  let impressions := _to_int row.impressions
  let clicks := _to_int row.clicks
  let spend := _to_float row.spend
  let cpm := _to_float row.cpm
  let cpc := _to_float row.cpc
  let ctr_raw := _to_float row.ctr
  (if 0 < impressions then
      (pyDivE (clicks : ℚ) (impressions : ℚ)).map (fun d => d * 100)
    else Except.ok 0).bind (fun ctr_calc =>
    let ctr := if 0 < ctr_calc then ctr_calc else ctr_raw
    let purchases := _pick_purchase_count row.actions
    let purchase_value := _pick_purchase_value row.action_values
    (if 0 < spend then pyDivE purchase_value spend else Except.ok 0).bind
      (fun roas =>
        Except.ok
          { ad_id := row.ad_id.getD ""
            ad_name := row.ad_name.getD "(sem nome)"
            adset_id := row.adset_id
            campaign_id := row.campaign_id
            impressions := impressions
            clicks := clicks
            spend := round4 spend
            cpm := round4 cpm
            cpc := round4 cpc
            ctr := round4 ctr
            purchases := purchases
            purchase_value := round4 purchase_value
            roas := round4 roas }))

def normalize_insights_adE : List RawRow → Except String (List NormAd)
  | [] => Except.ok []
  | row :: rest =>
      (normalizeRowAdE row).bind (fun r =>
        (normalize_insights_adE rest).bind (fun rs => Except.ok (r :: rs)))

/-- The short-circuiting denominator of ai_client._build_prompt:
`float(df[col].sum()) or 1.0` — the column total, with 1.0 substituted when
the total is zero (Python's `or` treats 0.0 as falsy). -/
def totalOr1 (xs : List ℚ) : ℚ :=
  if xs.sum = 0 then 1 else xs.sum

/-- The derived share column of ai_client._build_prompt:
`(df[col] / total) * 100` for a column of values. -/
def shareColumn (xs : List ℚ) : List ℚ :=
  xs.map (fun x => x / totalOr1 xs * 100)

/-- The spend_share column added to a granularity's records. -/
def spend_share (records : List NormCampaign) : List ℚ :=
  shareColumn (records.map (fun r => r.spend))

/-- The rev_share column added to a granularity's records. -/
def rev_share (records : List NormCampaign) : List ℚ :=
  shareColumn (records.map (fun r => r.purchase_value))

def GRAPH_BASE : String := "https://graph.facebook.com/v24.0"

structure MetaError where
  message : Option String
  deriving DecidableEq

/-- The parts of a Graph API JSON response that fetch_insights reads:
HTTP status, the data array, the paging.next cursor, and an embedded
error object. -/
structure MetaResponse (α : Type) where
  status : Nat
  data : List α
  next : Option String
  error : Option MetaError
  deriving DecidableEq

/-- The query parameters fetch_insights sends on its first request. -/
structure MetaParams where
  fields : List String
  level : String
  limit : Nat
  access_token : String
  action_report_time : String
  use_unified_attribution_setting : Bool
  time_range : Option (String × String)
  date_preset : Option String
  deriving DecidableEq

/-- `err.get("message", "Erro ao consultar Meta Graph API")` where err is
`data.get("error", \x7b\x7d)`. -/
def metaErrorMessage (e : Option MetaError) : String :=
  match e with
  | Option.some err => err.message.getD "Erro ao consultar Meta Graph API"
  | Option.none => "Erro ao consultar Meta Graph API"

def campaignFields : List String :=
  ["campaign_id", "campaign_name", "impressions", "clicks", "spend", "cpm",
   "cpc", "ctr", "actions", "action_values"]

def mkCampaignParams (access_token date_preset : String)
    (since untilD : Option String) : MetaParams :=
  { fields := campaignFields
    level := "campaign"
    limit := 5000
    access_token := access_token
    action_report_time := "conversion"
    use_unified_attribution_setting := true
    time_range :=
      match since, untilD with
      | Option.some s, Option.some u => Option.some (s, u)
      | _, _ => Option.none
    date_preset :=
      match since, untilD with
      | Option.some _, Option.some _ => Option.none
      | _, _ => Option.some date_preset }

/-- The while-loop of meta_client.fetch_insights.  The remote server is a
parameter mapping (url, params) to a response; after the first request the
loop follows paging.next with empty params.  The loop also counts the
requests it issues.  Python's loop has no fuel; the fuel argument only
bounds unrolling, and the error it returns on exhaustion is unreachable for
any server whose cursor chain terminates. -/
def fetchLoop {α : Type} (server : String → Option MetaParams → MetaResponse α) :
    Nat → String → Option MetaParams → List α → Nat → Except String (List α × Nat)
  | 0, _, _, _, _ => Except.error "fuel exhausted"
  | Nat.succ fuel, url, ps, acc, calls =>
      let resp := server url ps
      if resp.status ≠ 200 ∨ resp.error.isSome then
        Except.error (metaErrorMessage resp.error)
      else
        let acc2 := acc ++ resp.data
        match resp.next with
        | Option.none => Except.ok (acc2, calls + 1)
        | Option.some nxt => fetchLoop server fuel nxt Option.none acc2 (calls + 1)

/-- meta_client.fetch_insights: initial campaign-level query followed by the
pagination loop, returning all rows in server order plus the request count. -/
def fetch_insights {α : Type} (server : String → Option MetaParams → MetaResponse α)
    (access_token ad_account_id date_preset : String)
    (since untilD : Option String) (fuel : Nat) : Except String (List α × Nat) :=
  let url := GRAPH_BASE ++ "/act_" ++ ad_account_id ++ "/insights"
  fetchLoop server fuel url
    (Option.some (mkCampaignParams access_token date_preset since untilD)) [] 0

structure ChatMsg where
  role : String
  content : String
  deriving DecidableEq

def systemChatMsg : ChatMsg :=
  ⟨"system",
   "Você é um analista de mídia sênior especializado em Meta Ads. Nunca invente dados; se não houver dado, diga claramente. Responda primeiro à pergunta, depois mostre evidências e ações."⟩

def pyStrip (s : String) : String :=
  String.mk (((s.data.dropWhile pSpace).reverse.dropWhile pSpace).reverse)

/-- ai_client.analyze_campaigns_with_gpt.  The remote chat-completion
capability (client construction plus network call) is the chat parameter
and the pure prompt string built by _build_prompt is passed in already
assembled; in the source the credential guard precedes both.  The second
component counts invocations of the remote capability. -/
def analyze_campaigns_with_gpt (chat : List ChatMsg → String)
    (api_key : String) (prompt : String) (history : List ChatMsg) :
    Except String String × Nat :=
  if api_key = "" then
    (Except.error "OPENAI_API_KEY não encontrado nas variáveis de ambiente.", 0)
  else
    let trimmed := history.drop (history.length - 8)
    let coerced := trimmed.map (fun m =>
      if m.role = "user" ∨ m.role = "assistant" then m
      else { role := "user", content := m.content })
    let messages := systemChatMsg :: (coerced ++ [{ role := "user", content := prompt }])
    (Except.ok (pyStrip (chat messages)), 1)

/-! ### Response sanitizer (main._sanitize_analysis)

The sanitizer is a pipeline of character- and line-level rewrites.  Each
Python regex substitution is embedded as a left-to-right scanner with the
same leftmost, greedy, non-overlapping match semantics as re.sub for that
particular pattern. -/

/-- Modelled from the spec: unicodedata.category(ch).startswith("C") — the
full Unicode category table lives in the external unicodedata module; this
model is exact on the Basic Latin and Latin-1 ranges this backend processes
and on the common format characters (the generated Portuguese analysis text
never contains other code points). -/
def isCatC (c : Char) : Bool :=
  c.toNat < 0x20 || c.toNat = 0x7F || (0x80 ≤ c.toNat && c.toNat ≤ 0x9F) ||
  c.toNat = 0xAD || c.toNat = 0x61C ||
  (0x200B ≤ c.toNat && c.toNat ≤ 0x200F) ||
  (0x202A ≤ c.toNat && c.toNat ≤ 0x202E) ||
  (0x2060 ≤ c.toNat && c.toNat ≤ 0x2064) ||
  (0x2066 ≤ c.toNat && c.toNat ≤ 0x206F) ||
  c.toNat = 0xFEFF

/-- Modelled from the spec: unicodedata.normalize("NFKC", ch) for a single
kept character — the NFKC table is external; it is the identity on the
Basic Latin and Latin-1 text this backend processes, which is how it is
modelled here. -/
def nfkcChar (c : Char) : List Char := [c]

/-- Modelled from the spec: the re module's backslash-w class (word
characters), exact on the Basic Latin and Latin-1 ranges. -/
def isPyWord (c : Char) : Bool :=
  c.isAlphanum || c = '_' ||
  (0xC0 ≤ c.toNat && c.toNat ≤ 0xFF && c.toNat ≠ 0xD7 && c.toNat ≠ 0xF7)

/-- text.replace("\r\n", "\n").replace("\r", "\n"). -/
def nlNorm : List Char → List Char
  | [] => []
  | '\r' :: '\n' :: rest => '\n' :: nlNorm rest
  | '\r' :: rest => '\n' :: nlNorm rest
  | c :: rest => c :: nlNorm rest

def keepChar (c : Char) : Bool := c = '\n' || c = ' ' || c = '\t'

/-- The character filter: keep newline, space and tab; drop category-C
characters; NFKC-normalize everything else. -/
def charFilter : List Char → List Char
  | [] => []
  | c :: rest =>
      if keepChar c then c :: charFilter rest
      else if isCatC c then charFilter rest
      else nfkcChar c ++ charFilter rest

/-- Python str.strip(). -/
def stripWs (l : List Char) : List Char :=
  ((l.dropWhile pSpace).reverse.dropWhile pSpace).reverse

def splitNl : List Char → List (List Char)
  | [] => [[]]
  | c :: rest =>
      if c = '\n' then [] :: splitNl rest
      else
        match splitNl rest with
        | [] => [[c]]
        | l :: ls => (c :: l) :: ls

def joinNl : List (List Char) → List Char
  | [] => []
  | [l] => l
  | l :: ls => l ++ '\n' :: joinNl ls

/-- Matches the final `\s*:` (and the arbitrary tail) of a banned-header
pattern. -/
def afterColon (l : List Char) : Bool :=
  match l.dropWhile pSpace with
  | ':' :: _ => true
  | _ => false

def expectLit : List Char → List Char → Option (List Char)
  | [], l => Option.some l
  | _ :: _, [] => Option.none
  | p :: ps, c :: cs => if c = p then expectLit ps cs else Option.none

def expectOne (alts : List Char) : List Char → Option (List Char)
  | c :: cs => if alts.contains c then Option.some cs else Option.none
  | [] => Option.none

/-- One or more whitespace characters, consumed greedily. -/
def expectWs1 : List Char → Option (List Char)
  | c :: cs => if pSpace c then Option.some (cs.dropWhile pSpace) else Option.none
  | [] => Option.none

/-- re.match of the banned pattern for the direct-answer header. -/
def bannedDirect (l : List Char) : Bool :=
  (((expectLit "resposta".data (l.dropWhile pSpace)).bind expectWs1).bind
      (expectLit "direta".data)).elim false afterColon

/-- re.match of the banned pattern for the evidence header. -/
def bannedEvidence (l : List Char) : Bool :=
  (((expectLit "evid".data (l.dropWhile pSpace)).bind
      (expectOne ['e', 'ê'])).bind (expectLit "ncias".data)).elim false afterColon

/-- re.match of the banned pattern for the recommended-actions header. -/
def bannedActions (l : List Char) : Bool :=
  ((((((expectLit "a".data (l.dropWhile pSpace)).bind
      (expectOne ['c', 'ç'])).bind (expectOne ['o', 'õ'])).bind
      (expectLit "es".data)).bind expectWs1).bind
      (expectLit "recomendadas".data)).elim false afterColon

/-- re.match of the banned pattern for the risks header, with its optional
observations group. -/
def bannedRisks (l : List Char) : Bool :=
  match expectLit "riscos".data (l.dropWhile pSpace) with
  | Option.none => false
  | Option.some r =>
      afterColon r ||
      ((((((expectLit "/".data r).bind (expectOne ['o', 'ó'])).bind
          (expectLit "bserva".data)).bind (expectOne ['c', 'ç'])).bind
          (expectOne ['o', 'õ'])).bind (expectLit "es".data)).elim false afterColon

/-- re.match of the banned pattern for the next-steps header. -/
def bannedNextSteps (l : List Char) : Bool :=
  ((((expectLit "pr".data (l.dropWhile pSpace)).bind
      (expectOne ['o', 'ó'])).bind (expectLit "ximos".data)).bind
      expectWs1).bind (expectLit "passos".data) |>.elim false afterColon

def bannedLine (l : List Char) : Bool :=
  bannedDirect l || bannedEvidence l || bannedActions l || bannedRisks l ||
  bannedNextSteps l

/-- re.sub of a leading bullet marker: one match of `\s*[-*•]\s+` anchored
at the line start, removed. -/
def stripBullet (ln : List Char) : List Char :=
  match ln.dropWhile pSpace with
  | c :: rest =>
      if c = '-' || c = '*' || c = '•' then
        match rest with
        | d :: _ => if pSpace d then rest.dropWhile pSpace else ln
        | [] => ln
      else ln
  | [] => ln

/-- re.sub of a leading enumeration marker: one match of a digit run
followed by one of . ) - and whitespace, anchored at the line start. -/
def stripNum (ln : List Char) : List Char :=
  let r := ln.dropWhile pSpace
  let ds := r.takeWhile Char.isDigit
  if ds = [] then ln
  else
    match r.drop ds.length with
    | p :: rest =>
        if p = '.' || p = ')' || p = '-' then
          match rest with
          | d :: _ => if pSpace d then rest.dropWhile pSpace else ln
          | [] => ln
        else ln
    | [] => ln

/-- The line loop: drop lines whose stripped, lowercased text matches a
banned header; strip a leading bullet and then a leading enumeration marker
from the surviving lines; rejoin with newlines. -/
def lineStage (l : List Char) : List Char :=
  joinNl ((splitNl l).filterMap (fun ln =>
    if bannedLine ((stripWs ln).map pyLowerChar) then Option.none
    else Option.some (stripNum (stripBullet ln))))

/-- re.sub collapsing runs of three or more newlines to exactly two.  The
scanners below recurse on a character-count fuel initialized to the input
length, which makes them structurally recursive; every recursive call
strictly shrinks the list, so the fuel never runs out. -/
def collapseNlF : Nat → List Char → List Char
  | 0, l => l
  | Nat.succ n, '\n' :: '\n' :: '\n' :: rest =>
      '\n' :: '\n' :: collapseNlF n (rest.dropWhile (fun c => c = '\n'))
  | Nat.succ n, c :: rest => c :: collapseNlF n rest
  | Nat.succ _, [] => []

def collapseNl (l : List Char) : List Char := collapseNlF l.length l

def tabToSpace (l : List Char) : List Char :=
  l.map (fun c => if c = '\t' then ' ' else c)

/-- The characters of the paragraph sentinel string of the source. -/
def PARA : List Char := ['<', '<', 'P', 'A', 'R', 'A', '>', '>']

/-- text.replace("\n\n", PARA). -/
def protectPara : List Char → List Char
  | '\n' :: '\n' :: rest => PARA ++ protectPara rest
  | c :: rest => c :: protectPara rest
  | [] => []

/-- re.sub removing a newline flanked by word characters (the lookaround
pattern consumes only the newline, so scanning resumes at the following
word character). -/
def joinWordNlF : Nat → List Char → List Char
  | 0, l => l
  | Nat.succ n, a :: '\n' :: b :: rest =>
      if isPyWord a && isPyWord b then joinWordNlF n (a :: b :: rest)
      else a :: joinWordNlF n ('\n' :: b :: rest)
  | Nat.succ n, c :: rest => c :: joinWordNlF n rest
  | Nat.succ _, [] => []

def joinWordNl (l : List Char) : List Char := joinWordNlF l.length l

/-- re.sub removing every backslash together with the whitespace around it. -/
def rmBackslashF : Nat → List Char → List Char
  | 0, l => l
  | Nat.succ _, [] => []
  | Nat.succ n, c :: rest =>
      if c = '\\' then rmBackslashF n (rest.dropWhile pSpace)
      else if pSpace c then
        match rest.dropWhile pSpace with
        | d :: r2 =>
            if d = '\\' then rmBackslashF n (r2.dropWhile pSpace)
            else (c :: rest.takeWhile pSpace) ++ rmBackslashF n (rest.dropWhile pSpace)
        | [] => c :: rest
      else c :: rmBackslashF n rest

def rmBackslash (l : List Char) : List Char := rmBackslashF l.length l

/-- text.replace("\n", " "). -/
def nlToSpace (l : List Char) : List Char :=
  l.map (fun c => if c = '\n' then ' ' else c)

/-- text.replace(PARA, "\n\n"). -/
def restorePara : List Char → List Char
  | '<' :: '<' :: 'P' :: 'A' :: 'R' :: 'A' :: '>' :: '>' :: rest =>
      '\n' :: '\n' :: restorePara rest
  | c :: rest => c :: restorePara rest
  | [] => []

def spTab (c : Char) : Bool := c = ' ' || c = '\t'

/-- re.sub collapsing runs of two or more spaces/tabs to one space. -/
def collapseSpF : Nat → List Char → List Char
  | 0, l => l
  | Nat.succ n, a :: b :: rest =>
      if spTab a && spTab b then ' ' :: collapseSpF n ((b :: rest).dropWhile spTab)
      else a :: collapseSpF n (b :: rest)
  | Nat.succ _, l => l

def collapseSp (l : List Char) : List Char := collapseSpF l.length l

def punct1 (c : Char) : Bool :=
  c = ',' || c = '.' || c = ';' || c = ':' || c = '!' || c = '?'

/-- re.sub removing whitespace before sentence punctuation. -/
def rmWsPunctF : Nat → List Char → List Char
  | 0, l => l
  | Nat.succ _, [] => []
  | Nat.succ n, c :: rest =>
      if pSpace c then
        match rest.dropWhile pSpace with
        | p :: r2 =>
            if punct1 p then p :: rmWsPunctF n r2
            else (c :: rest.takeWhile pSpace) ++ rmWsPunctF n (rest.dropWhile pSpace)
        | [] => c :: rest
      else c :: rmWsPunctF n rest

def rmWsPunct (l : List Char) : List Char := rmWsPunctF l.length l

/-- re.sub removing whitespace after an opening parenthesis. -/
def rmParenWsF : Nat → List Char → List Char
  | 0, l => l
  | Nat.succ _, [] => []
  | Nat.succ n, c :: rest =>
      if c = '(' then
        match rest with
        | d :: _ =>
            if pSpace d then '(' :: rmParenWsF n (rest.dropWhile pSpace)
            else '(' :: rmParenWsF n rest
        | [] => ['(']
      else c :: rmParenWsF n rest

def rmParenWs (l : List Char) : List Char := rmParenWsF l.length l

/-- re.sub removing whitespace before a closing parenthesis. -/
def rmWsParenF : Nat → List Char → List Char
  | 0, l => l
  | Nat.succ _, [] => []
  | Nat.succ n, c :: rest =>
      if pSpace c then
        match rest.dropWhile pSpace with
        | p :: r2 =>
            if p = ')' then ')' :: rmWsParenF n r2
            else (c :: rest.takeWhile pSpace) ++ rmWsParenF n (rest.dropWhile pSpace)
        | [] => c :: rest
      else c :: rmWsParenF n rest

def rmWsParen (l : List Char) : List Char := rmWsParenF l.length l

/-- text.replace("R $", "R$"). -/
def fixRDollar : List Char → List Char
  | 'R' :: ' ' :: '$' :: rest => 'R' :: '$' :: fixRDollar rest
  | c :: rest => c :: fixRDollar rest
  | [] => []

/-- re.sub normalizing "R$" followed by whitespace to "R$ ". -/
def fixCurrencyF : Nat → List Char → List Char
  | 0, l => l
  | Nat.succ n, 'R' :: '$' :: rest =>
      (match rest with
        | d :: _ =>
            if pSpace d then
              'R' :: '$' :: ' ' :: fixCurrencyF n (rest.dropWhile pSpace)
            else 'R' :: '$' :: fixCurrencyF n rest
        | [] => ['R', '$'])
  | Nat.succ n, c :: rest => c :: fixCurrencyF n rest
  | Nat.succ _, [] => []

def fixCurrency (l : List Char) : List Char := fixCurrencyF l.length l

/-- re.sub tightening stray whitespace around a decimal comma with a one- or
two-digit fractional part. -/
def fixDecimalF : Nat → List Char → List Char
  | 0, l => l
  | Nat.succ _, [] => []
  | Nat.succ n, c :: rest =>
      if c.isDigit then
        match rest.dropWhile pSpace with
        | ',' :: r2 =>
            (match r2.dropWhile pSpace with
              | d1 :: r3 =>
                  if d1.isDigit then
                    match r3 with
                    | d2 :: r4 =>
                        if d2.isDigit then c :: ',' :: d1 :: d2 :: fixDecimalF n r4
                        else c :: ',' :: d1 :: fixDecimalF n r3
                    | [] => [c, ',', d1]
                  else c :: fixDecimalF n rest
              | [] => c :: fixDecimalF n rest)
        | _ => c :: fixDecimalF n rest
      else c :: fixDecimalF n rest

def fixDecimal (l : List Char) : List Char := fixDecimalF l.length l

/-- The full sanitizer pipeline of main._sanitize_analysis, in source
order. -/
def sanitizePipeline (l : List Char) : List Char :=
  stripWs (fixDecimal (fixCurrency (fixRDollar (rmWsParen (rmParenWs (rmWsPunct
    (collapseSp (restorePara (nlToSpace (rmBackslash (joinWordNl (protectPara
      (tabToSpace (stripWs (collapseNl (lineStage (charFilter (nlNorm l))))))))))))))))))

/-- main._sanitize_analysis: empty input returns unchanged, otherwise the
pipeline runs on the character list. -/
def _sanitize_analysis (s : String) : String :=
  if s = "" then s else String.mk (sanitizePipeline s.data)

/-! ### Sanitized normal form

The sanitizer is not idempotent (each application strips at most one
leading list marker per line, and joining lines can form a banned header
that only the next application drops).  The normal form below
characterizes a class of already-sanitized texts on which every stage of
the pipeline acts as the identity, which yields the amended idempotence
statement. -/

/-- Characters of a sanitized-normal-form text: newline, space, or a
printable character that is not whitespace, not a backslash and not an
opening angle bracket. -/
def nfCharOk (c : Char) : Bool :=
  c = '\n' || c = ' ' ||
  (!isCatC c && !pSpace c && !(c = '\\') && !(c = '<'))

/-- Every maximal newline run has length exactly two (paragraph breaks
only). -/
def nlRuns : List Char → Bool
  | [] => true
  | c :: rest =>
      if c = '\n' then
        match rest with
        | d :: rest2 =>
            if d = '\n' then
              match rest2 with
              | e :: _ => if e = '\n' then false else nlRuns rest2
              | [] => nlRuns rest2
            else false
        | [] => false
      else nlRuns rest

/-- Local window conditions at one position: no whitespace before
punctuation or a closing parenthesis, none after an opening parenthesis,
no space/tab pairs, no space adjacent to a newline, and no still-rewritable
currency or decimal-comma pattern. -/
def windowCond (c : Char) : List Char → Bool
  | [] => true
  | d :: rest2 =>
      !(pSpace c && punct1 d) &&
      !(pSpace c && d = ')') &&
      !(c = '(' && pSpace d) &&
      !(spTab c && spTab d) &&
      !(c = ' ' && d = '\n') &&
      !(c = '\n' && d = ' ') &&
      (match rest2 with
        | e :: rest3 =>
            !(c = 'R' && d = ' ' && e = '$') &&
            !(c = 'R' && d = '$' && e = '\n') &&
            !(c.isDigit && d = ',' && e = '\n') &&
            (match rest3 with
              | f :: _ => !(c.isDigit && d = ',' && e = ' ' && f.isDigit)
              | [] => true)
        | [] => true)

def winOk : List Char → Bool
  | [] => true
  | c :: rest => windowCond c rest && winOk rest

/-- The text neither starts nor ends with whitespace. -/
def edgeOk (l : List Char) : Bool :=
  (match l with
    | [] => true
    | c :: _ => !pSpace c) &&
  (match l.getLast? with
    | Option.none => true
    | Option.some c => !pSpace c)

/-- No line matches a banned header and no line carries a strippable
leading bullet or enumeration marker. -/
def lineOk (l : List Char) : Bool :=
  (splitNl l).all (fun ln =>
    !bannedLine ((stripWs ln).map pyLowerChar) &&
    stripBullet ln == ln && stripNum ln == ln)

/-- Sanitized normal form: the conjunction of all of the above. -/
def sanitizedNF (l : List Char) : Bool :=
  l.all nfCharOk && nlRuns l && winOk l && edgeOk l && lineOk l

/-! ## Theorems -/

theorem round4_zero : round4 0 = 0 := by
  simp [round4, roundHalfEven]

theorem byTypeGet_isSome_iff (actions : List ActionEntry) (t : String) :
    (byTypeGet actions t).isSome ↔
      actions.any (fun a => pyLower a.action_type = t) = true := by
  unfold byTypeGet
  rw [List.getLast?_isSome, List.any_eq_true]
  constructor
  · intro h
    rcases List.exists_mem_of_ne_nil _ h with ⟨a, ha⟩
    rcases List.mem_filter.1 ha with ⟨h1, h2⟩
    exact ⟨a, h1, by simpa using h2⟩
  · rintro ⟨a, h1, h2⟩ hnil
    have : a ∈ List.filter (fun a => decide (pyLower a.action_type = t)) actions :=
      List.mem_filter.2 ⟨h1, by simpa using h2⟩
    simp [hnil] at this

theorem findSome?_byTypeGet_of_find? (actions : List ActionEntry) :
    ∀ (ps : List String) (t : String),
      ps.find? (fun p => actions.any (fun a => pyLower a.action_type = p)) =
        Option.some t →
      ps.findSome? (fun p => byTypeGet actions p) = byTypeGet actions t ∧
        (byTypeGet actions t).isSome := by
  intro ps
  induction ps with
  | nil => intro t h; simp [List.find?] at h
  | cons p ps ih =>
      intro t h
      by_cases hp : actions.any (fun a => pyLower a.action_type = p) = true
      · rw [List.find?_cons_of_pos _ (by simpa using hp)] at h
        have ht : p = t := by simpa using h
        subst ht
        have hs : (byTypeGet actions p).isSome := (byTypeGet_isSome_iff actions p).2 hp
        rcases Option.isSome_iff_exists.1 hs with ⟨a, ha⟩
        refine ⟨?_, hs⟩
        rw [List.findSome?_cons, ha]
      · rw [List.find?_cons_of_neg _ (by simpa using hp)] at h
        have := ih t h
        refine ⟨?_, this.2⟩
        have hnone : byTypeGet actions p = Option.none := by
          rcases Option.eq_none_or_eq_some (byTypeGet actions p) with h0 | ⟨a, ha⟩
          · exact h0
          · exact absurd ((byTypeGet_isSome_iff actions p).1 (by simp [ha])) hp
        rw [List.findSome?_cons, hnone]
        exact this.1

theorem pick_count_eq_of_first (actions : List ActionEntry) (t : String)
    (h : firstPriorityTag actions = Option.some t) :
    ∃ a, byTypeGet actions t = Option.some a ∧
      _pick_purchase_count actions = _to_int a.value := by
  rcases findSome?_byTypeGet_of_find? actions PURCHASE_PRIORITY t h with ⟨heq, hs⟩
  rcases Option.isSome_iff_exists.1 hs with ⟨a, ha⟩
  refine ⟨a, ha, ?_⟩
  unfold _pick_purchase_count
  rw [heq, ha]

theorem pick_value_eq_of_first (avs : List ActionEntry) (t : String)
    (h : firstPriorityTag avs = Option.some t) :
    ∃ a, byTypeGet avs t = Option.some a ∧
      _pick_purchase_value avs = _to_float a.value := by
  rcases findSome?_byTypeGet_of_find? avs PURCHASE_PRIORITY t h with ⟨heq, hs⟩
  rcases Option.isSome_iff_exists.1 hs with ⟨a, ha⟩
  refine ⟨a, ha, ?_⟩
  unfold _pick_purchase_value
  rw [heq, ha]

theorem filter_tag_eq_single (actions : List ActionEntry) (a : ActionEntry) (t : String)
    (hnd : (actions.map (fun x => pyLower x.action_type)).Nodup)
    (hmem : a ∈ actions) (htag : pyLower a.action_type = t) :
    actions.filter (fun x => pyLower x.action_type = t) = [a] := by
  induction actions with
  | nil => simp at hmem
  | cons b rest ih =>
      rw [List.map_cons, List.nodup_cons] at hnd
      rcases List.mem_cons.1 hmem with hb | hr
      · subst hb
        rw [List.filter_cons, if_pos (by simpa using htag)]
        have : rest.filter (fun x => pyLower x.action_type = t) = [] := by
          rw [List.filter_eq_nil_iff]
          intro x hx hcontra
          exact hnd.1 (by
            rw [← htag] at hcontra
            have : pyLower x.action_type = pyLower a.action_type := by simpa using hcontra
            rw [← this]
            exact List.mem_map_of_mem _ hx)
        rw [this]
      · have hne : pyLower b.action_type ≠ t := by
          intro hcontra
          exact hnd.1 (by
            rw [hcontra, ← htag]
            exact List.mem_map_of_mem _ hr)
        rw [List.filter_cons, if_neg (by simpa using hne)]
        exact ih hnd.2 hr

/-- Claim C1: purchase resolution by priority.  When some entry's
case-insensitively compared tag is in the fixed priority list, the resolved
purchase count is the integer-coerced value of the entry carrying the
earliest-priority tag present, with no summing of other entries; the same
policy governs purchase-value resolution over action-value entries.
(With tags pairwise distinct after lowercasing, "the entry" is unique.) -/
theorem C1_purchase_priority_pick
    (actions avs : List ActionEntry) (a b : ActionEntry) (t u : String)
    (h1 : firstPriorityTag actions = Option.some t)
    (h2 : (actions.map (fun x => pyLower x.action_type)).Nodup)
    (h3 : a ∈ actions) (h4 : pyLower a.action_type = t)
    (h5 : firstPriorityTag avs = Option.some u)
    (h6 : (avs.map (fun x => pyLower x.action_type)).Nodup)
    (h7 : b ∈ avs) (h8 : pyLower b.action_type = u) :
    _pick_purchase_count actions = _to_int a.value ∧
      _pick_purchase_value avs = _to_float b.value := by
  constructor
  · rcases pick_count_eq_of_first actions t h1 with ⟨c, hc, hpick⟩
    have hbt : byTypeGet actions t = Option.some a := by
      unfold byTypeGet
      rw [filter_tag_eq_single actions a t h2 h3 h4]
      rfl
    rw [hbt] at hc
    rw [hpick, Option.some_inj.1 hc]
  · rcases pick_value_eq_of_first avs u h5 with ⟨c, hc, hpick⟩
    have hbt : byTypeGet avs u = Option.some b := by
      unfold byTypeGet
      rw [filter_tag_eq_single avs b u h6 h7 h8]
      rfl
    rw [hbt] at hc
    rw [hpick, Option.some_inj.1 hc]

theorem C1_witness :
    _pick_purchase_count
        [⟨"fb_pixel_purchase", PyVal.num 3⟩, ⟨"omni_purchase", PyVal.num 5⟩] = 5 ∧
      _pick_purchase_value [⟨"omni_purchase", PyVal.num 7⟩] = 7 := by
  have h := C1_purchase_priority_pick
    [⟨"fb_pixel_purchase", PyVal.num 3⟩, ⟨"omni_purchase", PyVal.num 5⟩]
    [⟨"omni_purchase", PyVal.num 7⟩]
    ⟨"omni_purchase", PyVal.num 5⟩ ⟨"omni_purchase", PyVal.num 7⟩
    "omni_purchase" "omni_purchase"
    (by decide) (by decide) (by simp) (by decide)
    (by decide) (by decide) (by simp) (by decide)
  refine ⟨h.1.trans ?_, h.2.trans ?_⟩
  · norm_num [_to_int, pyFloat, ratTrunc]
  · norm_num [_to_float, pyFloat]

theorem foldl_add_toInt (l : List ActionEntry) :
    ∀ init : ℤ, l.foldl (fun total a => total + _to_int a.value) init =
      init + (l.map (fun a => _to_int a.value)).sum := by
  induction l with
  | nil => intro init; simp
  | cons a rest ih =>
      intro init
      rw [List.foldl_cons, ih, List.map_cons, List.sum_cons]
      ring

/-- Claim C2: purchase-resolution fallback.  With no priority-list tag
present, the resolved purchase count is the sum of the integer-coerced
values of exactly those entries whose lowercased tag is in the allowed
exact-match set or ends with ".purchase" or "_purchase". -/
theorem C2_purchase_fallback_sum (actions : List ActionEntry)
    (h : ∀ t ∈ PURCHASE_PRIORITY, ∀ a ∈ actions, pyLower a.action_type ≠ t) :
    _pick_purchase_count actions =
      ((actions.filter
          (fun a => spec_purchase_like (pyLower a.action_type))).map
        (fun a => _to_int a.value)).sum := by
  have hnone :
      PURCHASE_PRIORITY.findSome? (fun t => byTypeGet actions t) = Option.none := by
    rw [List.findSome?_eq_none_iff]
    intro t ht
    rcases Option.eq_none_or_eq_some (byTypeGet actions t) with h0 | ⟨a, ha⟩
    · exact h0
    · exfalso
      have := (byTypeGet_isSome_iff actions t).1 (by simp [ha])
      rcases List.any_eq_true.1 this with ⟨a, hmem, htag⟩
      exact h t ht a hmem (by simpa using htag)
  unfold _pick_purchase_count
  rw [hnone]
  have hpred : (fun a : ActionEntry => _is_purchase_type a.action_type) =
      (fun a : ActionEntry => spec_purchase_like (pyLower a.action_type)) := rfl
  rw [hpred, foldl_add_toInt]
  simp

theorem C2_witness :
    _pick_purchase_count [⟨"offsite_conversion.custom_purchase", PyVal.num 2⟩] = 2 := by
  have h := C2_purchase_fallback_sum
    [⟨"offsite_conversion.custom_purchase", PyVal.num 2⟩] (by decide)
  refine h.trans ?_
  have hp : spec_purchase_like
      (pyLower "offsite_conversion.custom_purchase") = true := by decide
  rw [List.filter_cons, if_pos (by simpa using hp)]
  norm_num [_to_int, pyFloat, ratTrunc]

/-- Claim C10: duplicate-tag edge case.  When two or more entries share the
same lowercased tag and that tag is the (earliest-priority) resolved one,
resolution returns the integer-coerced value of the last such entry (later
entries overwrite earlier ones in the tag index), not the sum; likewise for
purchase-value resolution. -/
theorem C10_duplicate_tag_last_wins
    (actions avs : List ActionEntry) (t u : String)
    (h1 : firstPriorityTag actions = Option.some t)
    (_h2 : 2 ≤ (actions.filter (fun x => pyLower x.action_type = t)).length)
    (h3 : firstPriorityTag avs = Option.some u)
    (_h4 : 2 ≤ (avs.filter (fun x => pyLower x.action_type = u)).length) :
    ∃ a b,
      (actions.filter (fun x => pyLower x.action_type = t)).getLast? = Option.some a ∧
      _pick_purchase_count actions = _to_int a.value ∧
      (avs.filter (fun x => pyLower x.action_type = u)).getLast? = Option.some b ∧
      _pick_purchase_value avs = _to_float b.value := by
  rcases pick_count_eq_of_first actions t h1 with ⟨a, ha, hpa⟩
  rcases pick_value_eq_of_first avs u h3 with ⟨b, hb, hpb⟩
  exact ⟨a, b, ha, hpa, hb, hpb⟩

theorem C10_witness :
    ∃ a b,
      (([⟨"omni_purchase", PyVal.num 2⟩, ⟨"OMNI_PURCHASE", PyVal.num 9⟩] :
          List ActionEntry).filter
        (fun x => pyLower x.action_type = "omni_purchase")).getLast? = Option.some a ∧
      _pick_purchase_count
        [⟨"omni_purchase", PyVal.num 2⟩, ⟨"OMNI_PURCHASE", PyVal.num 9⟩] =
        _to_int a.value ∧
      (([⟨"purchase", PyVal.num 1⟩, ⟨"purchase", PyVal.num 4⟩] :
          List ActionEntry).filter
        (fun x => pyLower x.action_type = "purchase")).getLast? = Option.some b ∧
      _pick_purchase_value [⟨"purchase", PyVal.num 1⟩, ⟨"purchase", PyVal.num 4⟩] =
        _to_float b.value :=
  C10_duplicate_tag_last_wins
    [⟨"omni_purchase", PyVal.num 2⟩, ⟨"OMNI_PURCHASE", PyVal.num 9⟩]
    [⟨"purchase", PyVal.num 1⟩, ⟨"purchase", PyVal.num 4⟩]
    "omni_purchase" "purchase"
    (by decide) (by decide) (by decide) (by decide)

theorem normalizeRowCampaignE_ok (row : RawRow) :
    normalizeRowCampaignE row = Except.ok (normalizeRowCampaign row) := by
  unfold normalizeRowCampaignE normalizeRowCampaign pyDivE
  by_cases h1 : (0 : ℤ) < _to_int row.impressions
  · have hi : ¬((_to_int row.impressions : ℚ) = 0) := by
      have : (0 : ℚ) < (_to_int row.impressions : ℚ) := by exact_mod_cast h1
      exact ne_of_gt this
    by_cases h2 : (0 : ℚ) < _to_float row.spend
    · have hs : ¬(_to_float row.spend = 0) := ne_of_gt h2
      simp [h1, h2, hi, hs, Except.map, Except.bind]
    · simp [h1, h2, hi, Except.map, Except.bind]
  · by_cases h2 : (0 : ℚ) < _to_float row.spend
    · have hs : ¬(_to_float row.spend = 0) := ne_of_gt h2
      simp [h1, h2, hs, Except.map, Except.bind]
    · simp [h1, h2, Except.map, Except.bind]

theorem normalizeRowAdsetE_ok (row : RawRow) :
    normalizeRowAdsetE row = Except.ok (normalizeRowAdset row) := by
  unfold normalizeRowAdsetE normalizeRowAdset pyDivE
  by_cases h1 : (0 : ℤ) < _to_int row.impressions
  · have hi : ¬((_to_int row.impressions : ℚ) = 0) := by
      have : (0 : ℚ) < (_to_int row.impressions : ℚ) := by exact_mod_cast h1
      exact ne_of_gt this
    by_cases h2 : (0 : ℚ) < _to_float row.spend
    · have hs : ¬(_to_float row.spend = 0) := ne_of_gt h2
      simp [h1, h2, hi, hs, Except.map, Except.bind]
    · simp [h1, h2, hi, Except.map, Except.bind]
  · by_cases h2 : (0 : ℚ) < _to_float row.spend
    · have hs : ¬(_to_float row.spend = 0) := ne_of_gt h2
      simp [h1, h2, hs, Except.map, Except.bind]
    · simp [h1, h2, Except.map, Except.bind]

theorem normalizeRowAdE_ok (row : RawRow) :
    normalizeRowAdE row = Except.ok (normalizeRowAd row) := by
  unfold normalizeRowAdE normalizeRowAd pyDivE
  by_cases h1 : (0 : ℤ) < _to_int row.impressions
  · have hi : ¬((_to_int row.impressions : ℚ) = 0) := by
      have : (0 : ℚ) < (_to_int row.impressions : ℚ) := by exact_mod_cast h1
      exact ne_of_gt this
    by_cases h2 : (0 : ℚ) < _to_float row.spend
    · have hs : ¬(_to_float row.spend = 0) := ne_of_gt h2
      simp [h1, h2, hi, hs, Except.map, Except.bind]
    · simp [h1, h2, hi, Except.map, Except.bind]
  · by_cases h2 : (0 : ℚ) < _to_float row.spend
    · have hs : ¬(_to_float row.spend = 0) := ne_of_gt h2
      simp [h1, h2, hs, Except.map, Except.bind]
    · simp [h1, h2, Except.map, Except.bind]

theorem normalize_insightsE_ok (raw : List RawRow) :
    normalize_insightsE raw = Except.ok (normalize_insights raw) := by
  induction raw with
  | nil => rfl
  | cons row rest ih =>
      simp [normalize_insightsE, normalize_insights, normalizeRowCampaignE_ok,
        ih, Except.bind]

theorem normalize_insights_adsetE_ok (raw : List RawRow) :
    normalize_insights_adsetE raw = Except.ok (normalize_insights_adset raw) := by
  induction raw with
  | nil => rfl
  | cons row rest ih =>
      simp [normalize_insights_adsetE, normalize_insights_adset,
        normalizeRowAdsetE_ok, ih, Except.bind]

theorem normalize_insights_adE_ok (raw : List RawRow) :
    normalize_insights_adE raw = Except.ok (normalize_insights_ad raw) := by
  induction raw with
  | nil => rfl
  | cons row rest ih =>
      simp [normalize_insights_adE, normalize_insights_ad, normalizeRowAdE_ok,
        ih, Except.bind]

/-- Claim C3: normalization is total.  With Python's exception points made
explicit in the Except monad, each of the three normalization functions
returns Except.ok on every raw row collection (it never raises), and every
numeric field whose conversion fails contributes the zero of its target
type instead of failing the row. -/
theorem C3_normalization_never_raises :
    (∀ raw, normalize_insightsE raw = Except.ok (normalize_insights raw)) ∧
    (∀ raw, normalize_insights_adsetE raw =
      Except.ok (normalize_insights_adset raw)) ∧
    (∀ raw, normalize_insights_adE raw = Except.ok (normalize_insights_ad raw)) ∧
    (∀ v, pyFloat v = Option.none → _to_int v = 0 ∧ _to_float v = 0) := by
  refine ⟨normalize_insightsE_ok, normalize_insights_adsetE_ok,
    normalize_insights_adE_ok, ?_⟩
  intro v hv
  constructor <;> simp [_to_int, _to_float, hv]

/-- A thoroughly malformed raw row: non-numeric strings, null and nested
values in every numeric field. -/
def badRow : RawRow :=
  { campaign_id := Option.none
    campaign_name := Option.none
    adset_id := Option.none
    adset_name := Option.none
    ad_id := Option.none
    ad_name := Option.none
    impressions := PyVal.str "abc"
    clicks := PyVal.none
    spend := PyVal.list 2
    cpm := PyVal.str ""
    cpc := PyVal.str "12x"
    ctr := PyVal.str "-"
    actions := [⟨"omni_purchase", PyVal.str "oops"⟩]
    action_values := [] }

theorem C3_witness :
    normalize_insightsE [badRow] = Except.ok (normalize_insights [badRow]) ∧
    normalize_insights_adsetE [badRow] =
      Except.ok (normalize_insights_adset [badRow]) ∧
    normalize_insights_adE [badRow] = Except.ok (normalize_insights_ad [badRow]) ∧
    (_to_int (PyVal.str "abc") = 0 ∧ _to_float (PyVal.str "abc") = 0) :=
  ⟨C3_normalization_never_raises.1 [badRow],
   C3_normalization_never_raises.2.1 [badRow],
   C3_normalization_never_raises.2.2.1 [badRow],
   C3_normalization_never_raises.2.2.2 (PyVal.str "abc") (by decide)⟩

/-- Claim C4: CTR recomputation rule.  The normalized ctr equals
round4(clicks/impressions*100) whenever impressions > 0 and the recomputed
value is positive; otherwise it equals the rounded API-supplied ctr. -/
theorem C4_ctr_recompute_rule (row : RawRow) :
    (0 < _to_int row.impressions → 0 < ctrCalcOf row →
      (normalizeRowCampaign row).ctr =
        round4 ((_to_int row.clicks : ℚ) / (_to_int row.impressions : ℚ) * 100)) ∧
    (¬(0 < _to_int row.impressions ∧ 0 < ctrCalcOf row) →
      (normalizeRowCampaign row).ctr = round4 (_to_float row.ctr)) := by
  constructor
  · intro h1 h2
    have hc : ctrCalcOf row =
        (_to_int row.clicks : ℚ) / (_to_int row.impressions : ℚ) * 100 := by
      rw [ctrCalcOf, if_pos h1]
    rw [hc] at h2
    simp only [normalizeRowCampaign]
    rw [if_pos h1, if_pos h2]
  · intro h
    by_cases h1 : 0 < _to_int row.impressions
    · have h2 : ¬(0 < ctrCalcOf row) := fun hc => h ⟨h1, hc⟩
      have hc : ctrCalcOf row =
          (_to_int row.clicks : ℚ) / (_to_int row.impressions : ℚ) * 100 := by
        rw [ctrCalcOf, if_pos h1]
      rw [hc] at h2
      simp only [normalizeRowCampaign]
      rw [if_pos h1, if_neg h2]
    · simp only [normalizeRowCampaign]
      rw [if_neg h1, if_neg (lt_irrefl (0 : ℚ))]

/-- A well-formed raw row used to instantiate the C4 and C5 rules. -/
def sampleRow : RawRow :=
  { campaign_id := Option.some "123"
    campaign_name := Option.some "Campanha A"
    adset_id := Option.none
    adset_name := Option.none
    ad_id := Option.none
    ad_name := Option.none
    impressions := PyVal.num 100
    clicks := PyVal.num 5
    spend := PyVal.num 10
    cpm := PyVal.num 0
    cpc := PyVal.num 0
    ctr := PyVal.num 2
    actions := [⟨"omni_purchase", PyVal.num 3⟩]
    action_values := [⟨"omni_purchase", PyVal.num 25⟩] }

theorem C4_witness :
    0 < _to_int sampleRow.impressions ∧ 0 < ctrCalcOf sampleRow ∧
    (normalizeRowCampaign sampleRow).ctr =
      round4 ((_to_int sampleRow.clicks : ℚ) /
        (_to_int sampleRow.impressions : ℚ) * 100) := by
  have h1 : (0 : ℤ) < _to_int sampleRow.impressions := by
    norm_num [sampleRow, _to_int, pyFloat, ratTrunc]
  have h5 : _to_int sampleRow.clicks = 5 := by
    norm_num [sampleRow, _to_int, pyFloat, ratTrunc]
  have h100 : _to_int sampleRow.impressions = 100 := by
    norm_num [sampleRow, _to_int, pyFloat, ratTrunc]
  have h2 : (0 : ℚ) < ctrCalcOf sampleRow := by
    rw [ctrCalcOf, if_pos h1, h5, h100]
    norm_num
  exact ⟨h1, h2, (C4_ctr_recompute_rule sampleRow).1 h1 h2⟩

/-- Claim C5: ROAS rule.  With positive row spend the normalized roas is
round4(purchase_value/spend) for the row's resolved purchase value; with
zero spend it is 0. -/
theorem C5_roas_rule (row : RawRow) :
    (0 < _to_float row.spend →
      (normalizeRowCampaign row).roas =
        round4 (_pick_purchase_value row.action_values / _to_float row.spend)) ∧
    (_to_float row.spend = 0 → (normalizeRowCampaign row).roas = 0) := by
  constructor
  · intro h
    simp only [normalizeRowCampaign]
    rw [if_pos h]
  · intro h
    simp only [normalizeRowCampaign]
    rw [if_neg (by rw [h]; exact lt_irrefl 0), round4_zero]

theorem C5_witness :
    0 < _to_float sampleRow.spend ∧
    (normalizeRowCampaign sampleRow).roas =
      round4 (_pick_purchase_value sampleRow.action_values /
        _to_float sampleRow.spend) := by
  have h : (0 : ℚ) < _to_float sampleRow.spend := by
    norm_num [sampleRow, _to_float, pyFloat]
  exact ⟨h, (C5_roas_rule sampleRow).1 h⟩

theorem sum_shareColumn (xs : List ℚ) (T : ℚ) :
    (xs.map (fun x => x / T * 100)).sum = xs.sum / T * 100 := by
  induction xs with
  | nil => simp
  | cons a l ih =>
      rw [List.map_cons, List.sum_cons, ih, List.sum_cons]
      ring

/-- Claim C6: share-of-total columns.  For a non-empty record collection of
one granularity, the derived spend-share column sums to 100 when total
spend is nonzero, the revenue-share column sums to 100 when total purchase
value is nonzero, and a zero total is replaced by the denominator 1, so no
division-by-zero failure occurs. -/
theorem C6_share_columns (records : List NormCampaign) (_h : records ≠ []) :
    ((records.map (fun r => r.spend)).sum ≠ 0 → (spend_share records).sum = 100) ∧
    ((records.map (fun r => r.purchase_value)).sum ≠ 0 →
      (rev_share records).sum = 100) ∧
    ((records.map (fun r => r.spend)).sum = 0 →
      totalOr1 (records.map (fun r => r.spend)) = 1) := by
  refine ⟨?_, ?_, ?_⟩
  · intro hs
    rw [spend_share, shareColumn, sum_shareColumn, totalOr1, if_neg hs,
      div_self hs]
    norm_num
  · intro hs
    rw [rev_share, shareColumn, sum_shareColumn, totalOr1, if_neg hs,
      div_self hs]
    norm_num
  · intro hs
    rw [totalOr1, if_pos hs]

theorem C6_witness :
    (spend_share
        [{ campaign_id := "1", campaign_name := "A", impressions := 10,
           clicks := 1, spend := 30, cpm := 0, cpc := 0, ctr := 0,
           purchases := 1, purchase_value := 40, roas := 0 },
         { campaign_id := "2", campaign_name := "B", impressions := 10,
           clicks := 1, spend := 70, cpm := 0, cpc := 0, ctr := 0,
           purchases := 1, purchase_value := 60, roas := 0 }]).sum = 100 ∧
    (rev_share
        [{ campaign_id := "1", campaign_name := "A", impressions := 10,
           clicks := 1, spend := 30, cpm := 0, cpc := 0, ctr := 0,
           purchases := 1, purchase_value := 40, roas := 0 },
         { campaign_id := "2", campaign_name := "B", impressions := 10,
           clicks := 1, spend := 70, cpm := 0, cpc := 0, ctr := 0,
           purchases := 1, purchase_value := 60, roas := 0 }]).sum = 100 := by
  have h := C6_share_columns
    [{ campaign_id := "1", campaign_name := "A", impressions := 10,
       clicks := 1, spend := 30, cpm := 0, cpc := 0, ctr := 0,
       purchases := 1, purchase_value := 40, roas := 0 },
     { campaign_id := "2", campaign_name := "B", impressions := 10,
       clicks := 1, spend := 70, cpm := 0, cpc := 0, ctr := 0,
       purchases := 1, purchase_value := 60, roas := 0 }]
    (by simp)
  exact ⟨h.1 (by norm_num), h.2.1 (by norm_num)⟩

/-- Claim C8: pagination concatenation.  For a server whose first response
carries a data array and a paging.next cursor, and whose response at that
cursor carries a data array and no next cursor, with both responses
successful and error-free, the fetcher issues exactly two requests and
returns the concatenation of the two pages' rows in server order. -/
theorem C8_pagination_concat {α : Type}
    (server : String → Option MetaParams → MetaResponse α)
    (tok acct preset : String) (d1 d2 : List α) (cursor : String) (fuel : Nat)
    (h1 : server (GRAPH_BASE ++ "/act_" ++ acct ++ "/insights")
        (Option.some (mkCampaignParams tok preset Option.none Option.none)) =
      { status := 200, data := d1, next := Option.some cursor,
        error := Option.none })
    (h2 : server cursor Option.none =
      { status := 200, data := d2, next := Option.none, error := Option.none })
    (hf : 2 ≤ fuel) :
    fetch_insights server tok acct preset Option.none Option.none fuel =
      Except.ok (d1 ++ d2, 2) := by
  obtain ⟨k, rfl⟩ : ∃ k, fuel = k + 2 := ⟨fuel - 2, by omega⟩
  show fetchLoop server (Nat.succ (Nat.succ k))
      (GRAPH_BASE ++ "/act_" ++ acct ++ "/insights")
      (Option.some (mkCampaignParams tok preset Option.none Option.none)) [] 0 =
    Except.ok (d1 ++ d2, 2)
  rw [fetchLoop, h1]
  simp only [Option.isSome_none, Option.isSome_some, or_false, or_self]
  rw [if_neg (by simp)]
  rw [fetchLoop, h2]
  rw [if_neg (by simp)]
  simp

theorem C8_witness :
    fetch_insights
      (fun url _ =>
        if url = GRAPH_BASE ++ "/act_123/insights" then
          { status := 200, data := ["row1"], next := Option.some "NEXTURL",
            error := Option.none }
        else if url = "NEXTURL" then
          ({ status := 200, data := ["row2"], next := Option.none,
             error := Option.none } : MetaResponse String)
        else { status := 400, data := [], next := Option.none,
               error := Option.some ⟨Option.some "bad"⟩ })
      "tok" "123" "last_7d" Option.none Option.none 2 =
      Except.ok (["row1", "row2"], 2) :=
  C8_pagination_concat
    (fun url _ =>
      if url = GRAPH_BASE ++ "/act_123/insights" then
        { status := 200, data := ["row1"], next := Option.some "NEXTURL",
          error := Option.none }
      else if url = "NEXTURL" then
        ({ status := 200, data := ["row2"], next := Option.none,
           error := Option.none } : MetaResponse String)
      else { status := 400, data := [], next := Option.none,
             error := Option.some ⟨Option.some "bad"⟩ })
    "tok" "123" "last_7d" ["row1"] ["row2"] "NEXTURL" 2
    (by decide) (by decide) (by decide)

/-- Claim C9: eager credential check.  With an empty API key the analysis
client fails with the configuration error and performs zero invocations of
the remote chat capability (no client construction, no network call); with
a non-empty key no such error arises at that point and the call proceeds. -/
theorem C9_eager_credential_check (chat : List ChatMsg → String)
    (api_key prompt : String) (history : List ChatMsg) :
    (api_key = "" →
      analyze_campaigns_with_gpt chat api_key prompt history =
        (Except.error "OPENAI_API_KEY não encontrado nas variáveis de ambiente.",
         0)) ∧
    (api_key ≠ "" →
      ∃ s, analyze_campaigns_with_gpt chat api_key prompt history =
        (Except.ok s, 1)) := by
  constructor
  · intro h
    simp [analyze_campaigns_with_gpt, h]
  · intro h
    unfold analyze_campaigns_with_gpt
    rw [if_neg h]
    exact ⟨_, rfl⟩

theorem C9_witness :
    analyze_campaigns_with_gpt (fun _ => "analise pronta") "" "pergunta" [] =
      (Except.error "OPENAI_API_KEY não encontrado nas variáveis de ambiente.",
       0) ∧
    ∃ s, analyze_campaigns_with_gpt (fun _ => "analise pronta") "chave"
        "pergunta" [] = (Except.ok s, 1) :=
  ⟨(C9_eager_credential_check (fun _ => "analise pronta") "" "pergunta" []).1 rfl,
   (C9_eager_credential_check (fun _ => "analise pronta") "chave" "pergunta" []).2
     (by decide)⟩

theorem winOk_cons {c : Char} {rest : List Char} (h : winOk (c :: rest) = true) :
    windowCond c rest = true ∧ winOk rest = true := by
  simpa [winOk, Bool.and_eq_true] using h

theorem nfCharOk_ws {c : Char} (h : nfCharOk c = true) (hws : pSpace c = true) :
    c = ' ' ∨ c = '\n' := by
  by_contra hcon
  push_neg at hcon
  simp [nfCharOk, hcon.1, hcon.2, hws] at h

theorem nf_no_char (l : List Char) (h : l.all nfCharOk = true) (c : Char)
    (hc : nfCharOk c = false) : c ∉ l := by
  intro hmem
  have := List.all_eq_true.1 h c hmem
  rw [hc] at this
  exact absurd this (by simp)

theorem nlNorm_cons_ne {c : Char} {rest : List Char} (h : ¬(c = '\r')) :
    nlNorm (c :: rest) = c :: nlNorm rest := by
  rw [nlNorm.eq_def]
  split <;> simp_all

theorem nlNorm_id (l : List Char) (h : '\r' ∉ l) : nlNorm l = l := by
  induction l with
  | nil => rfl
  | cons c rest ih =>
      rw [nlNorm_cons_ne (by rintro rfl; exact h (by simp))]
      rw [ih (fun hm => h (by simp [hm]))]

theorem charFilter_id (l : List Char) (h : l.all nfCharOk = true) :
    charFilter l = l := by
  induction l with
  | nil => rfl
  | cons c rest ih =>
      rw [List.all_cons, Bool.and_eq_true] at h
      by_cases hk : keepChar c = true
      · simp [charFilter, hk, ih h.2]
      · have hc : ¬(isCatC c = true) := by
          intro hcat
          by_cases h1 : c = '\n'
          · exact hk (by simp [keepChar, h1])
          by_cases h2 : c = ' '
          · exact hk (by simp [keepChar, h2])
          have h3 := h.1
          simp [nfCharOk, h1, h2, hcat] at h3
        simp [charFilter, hk, hc, nfkcChar, ih h.2]

theorem splitNl_ne_nil (l : List Char) : splitNl l ≠ [] := by
  induction l with
  | nil => simp [splitNl]
  | cons c rest _ =>
      simp only [splitNl]
      by_cases h : c = '\n'
      · simp [h]
      · rw [if_neg h]
        cases hs : splitNl rest with
        | nil => simp
        | cons a as => simp

theorem joinNl_cons_cons (c : Char) (l : List Char) (ls : List (List Char)) :
    joinNl ((c :: l) :: ls) = c :: joinNl (l :: ls) := by
  cases ls <;> simp [joinNl]

theorem joinNl_splitNl (l : List Char) : joinNl (splitNl l) = l := by
  induction l with
  | nil => rfl
  | cons c rest ih =>
      cases hs : splitNl rest with
      | nil => exact absurd hs (splitNl_ne_nil rest)
      | cons a as =>
          rw [hs] at ih
          by_cases h : c = '\n'
          · subst h
            have e : splitNl ('\n' :: rest) = [] :: a :: as := by
              simp [splitNl, hs]
            rw [e]
            simpa [joinNl] using ih
          · have e : splitNl (c :: rest) = (c :: a) :: as := by
              simp [splitNl, h, hs]
            rw [e, joinNl_cons_cons, ih]

theorem filterMap_id_of (L : List (List Char))
    (f : List Char → Option (List Char)) (h : ∀ x ∈ L, f x = Option.some x) :
    L.filterMap f = L := by
  induction L with
  | nil => rfl
  | cons a as ih =>
      rw [List.filterMap_cons, h a (by simp)]
      rw [ih (fun x hx => h x (by simp [hx]))]

theorem lineStage_id (l : List Char) (h : lineOk l = true) : lineStage l = l := by
  unfold lineStage
  unfold lineOk at h
  have heach := List.all_eq_true.1 h
  have : (splitNl l).filterMap (fun ln =>
      if bannedLine ((stripWs ln).map pyLowerChar) then Option.none
      else Option.some (stripNum (stripBullet ln))) = splitNl l := by
    apply filterMap_id_of
    intro ln hln
    have hl := heach ln hln
    simp only [Bool.and_eq_true, Bool.not_eq_true', beq_iff_eq] at hl
    rw [if_neg (by simp [hl.1.1])]
    rw [hl.1.2, hl.2]
  rw [this, joinNl_splitNl]

theorem nlRuns_cons_ne {c : Char} {rest : List Char} (h : ¬(c = '\n')) :
    nlRuns (c :: rest) = nlRuns rest := by
  conv_lhs => rw [nlRuns.eq_def]
  simp [h]

theorem nlRuns_pair {rest : List Char} (h : nlRuns ('\n' :: rest) = true) :
    ∃ rest2, rest = '\n' :: rest2 ∧ nlRuns rest2 = true ∧
      rest2.head? ≠ Option.some '\n' := by
  cases rest with
  | nil => simp [nlRuns] at h
  | cons d rest2 =>
      by_cases hd : d = '\n'
      · subst hd
        refine ⟨rest2, rfl, ?_, ?_⟩
        · cases rest2 with
          | nil => simp [nlRuns]
          | cons e r3 =>
              by_cases he : e = '\n'
              · subst he; simp [nlRuns] at h
              · rw [show nlRuns ('\n' :: '\n' :: e :: r3) = nlRuns (e :: r3) from
                  by simp [nlRuns, he]] at h
                exact h
        · cases rest2 with
          | nil => simp
          | cons e r3 =>
              by_cases he : e = '\n'
              · subst he; simp [nlRuns] at h
              · simp [he]
      · simp [nlRuns, hd] at h

theorem collapseNlF_id : ∀ n l, nlRuns l = true → collapseNlF n l = l := by
  intro n
  induction n using Nat.strong_induction_on with
  | _ n ih =>
      intro l hl
      match n, l with
      | 0, l => rfl
      | Nat.succ m, [] => rfl
      | Nat.succ m, c :: rest =>
          by_cases hc : c = '\n'
          · subst hc
            obtain ⟨rest2, rfl, h2, h3⟩ := nlRuns_pair hl
            have e1 : collapseNlF (Nat.succ m) ('\n' :: '\n' :: rest2) =
                '\n' :: collapseNlF m ('\n' :: rest2) := by
              rw [collapseNlF.eq_def]
              split <;> simp_all <;> (rename_i heq; exact heq.1.symm)
            rw [e1]
            cases m with
            | zero => rfl
            | succ k =>
                have e2 : collapseNlF (Nat.succ k) ('\n' :: rest2) =
                    '\n' :: collapseNlF k rest2 := by
                  rw [collapseNlF.eq_def]
                  split <;> simp_all <;> (rename_i heq; exact heq.1.symm)
                rw [e2, ih k (by omega) rest2 h2]
          · have e : collapseNlF (Nat.succ m) (c :: rest) =
                c :: collapseNlF m rest := by
              rw [collapseNlF.eq_def]
              split <;> simp_all
            rw [e, ih m (by omega) rest (by rwa [nlRuns_cons_ne hc] at hl)]

theorem collapseNl_id (l : List Char) (h : nlRuns l = true) : collapseNl l = l :=
  collapseNlF_id l.length l h

theorem stripWs_id (l : List Char) (h : edgeOk l = true) : stripWs l = l := by
  unfold edgeOk at h
  rw [Bool.and_eq_true] at h
  unfold stripWs
  have h1 : l.dropWhile pSpace = l := by
    cases l with
    | nil => rfl
    | cons c rest =>
        apply List.dropWhile_cons_of_neg
        simpa using h.1
  rw [h1]
  have h2 : l.reverse.dropWhile pSpace = l.reverse := by
    cases hr : l.reverse with
    | nil => rfl
    | cons c rest =>
        apply List.dropWhile_cons_of_neg
        have hg : l.getLast? = Option.some c := by
          rw [← List.head?_reverse, hr]
          rfl
        have h3 := h.2
        rw [hg] at h3
        simpa using h3
  rw [h2, List.reverse_reverse]

theorem tabToSpace_id (l : List Char) (h : '\t' ∉ l) : tabToSpace l = l := by
  induction l with
  | nil => rfl
  | cons c rest ih =>
      unfold tabToSpace at *
      rw [List.map_cons]
      rw [if_neg (by rintro rfl; exact h (by simp))]
      rw [ih (fun hm => h (by simp [hm]))]

theorem nlToSpace_id (l : List Char) (h : '\n' ∉ l) : nlToSpace l = l := by
  induction l with
  | nil => rfl
  | cons c rest ih =>
      unfold nlToSpace at *
      rw [List.map_cons]
      rw [if_neg (by rintro rfl; exact h (by simp))]
      rw [ih (fun hm => h (by simp [hm]))]

theorem protectPara_cons_ne {c : Char} {rest : List Char} (h : ¬(c = '\n')) :
    protectPara (c :: rest) = c :: protectPara rest := by
  rw [protectPara.eq_def]
  split <;> simp_all

theorem protectPara_cons_nl {rest : List Char}
    (h : rest.head? ≠ Option.some '\n') :
    protectPara ('\n' :: rest) = '\n' :: protectPara rest := by
  rw [protectPara.eq_def]
  split <;> simp_all <;> (rename_i heq; exact heq.1.symm)

theorem protectPara_no_nl : ∀ n l, l.length ≤ n → nlRuns l = true →
    '\n' ∉ protectPara l := by
  intro n
  induction n with
  | zero =>
      intro l hl _
      rw [List.length_eq_zero.1 (Nat.le_zero.1 hl)]
      simp [protectPara]
  | succ m ih =>
      intro l hl h
      cases l with
      | nil => simp [protectPara]
      | cons c rest =>
          by_cases hc : c = '\n'
          · subst hc
            obtain ⟨rest2, rfl, h2, h3⟩ := nlRuns_pair h
            rw [show protectPara ('\n' :: '\n' :: rest2) =
                PARA ++ protectPara rest2 from rfl]
            intro hm
            rcases List.mem_append.1 hm with hm | hm
            · revert hm; decide
            · have hlen : rest2.length ≤ m := by
                simp only [List.length_cons] at hl; omega
              exact ih rest2 hlen h2 hm
          · rw [protectPara_cons_ne hc]
            intro hm
            rcases List.mem_cons.1 hm with hm | hm
            · exact hc hm.symm
            · have hlen : rest.length ≤ m := by
                simp only [List.length_cons] at hl; omega
              exact ih rest hlen (by rwa [nlRuns_cons_ne hc] at h) hm

theorem mem_protectPara : ∀ n l (c : Char), l.length ≤ n →
    c ∈ protectPara l → c ∈ l ∨ c ∈ PARA := by
  intro n
  induction n with
  | zero =>
      intro l c hl hm
      rw [List.length_eq_zero.1 (Nat.le_zero.1 hl)] at hm
      simp [protectPara] at hm
  | succ m ih =>
      intro l c hl hm
      cases l with
      | nil => simp [protectPara] at hm
      | cons a rest =>
          by_cases ha : a = '\n'
          · subst ha
            cases hhd : rest.head? with
            | some d =>
                by_cases hd : d = '\n'
                · subst hd
                  cases rest with
                  | nil => simp at hhd
                  | cons b rest2 =>
                      have hb : b = '\n' := by simpa using hhd
                      subst hb
                      rw [show protectPara ('\n' :: '\n' :: rest2) =
                          PARA ++ protectPara rest2 from rfl] at hm
                      rcases List.mem_append.1 hm with hm | hm
                      · exact Or.inr hm
                      · have hlen : rest2.length ≤ m := by
                          simp only [List.length_cons] at hl; omega
                        rcases ih rest2 c (by omega) hm with h | h
                        · exact Or.inl (by simp [h])
                        · exact Or.inr h
                · rw [protectPara_cons_nl (by simp [hhd, hd])] at hm
                  rcases List.mem_cons.1 hm with hm | hm
                  · exact Or.inl (by simp [hm])
                  · have hlen : rest.length ≤ m := by
                      simp only [List.length_cons] at hl; omega
                    rcases ih rest c hlen hm with h | h
                    · exact Or.inl (by simp [h])
                    · exact Or.inr h
            | none =>
                rw [protectPara_cons_nl (by simp [hhd])] at hm
                rcases List.mem_cons.1 hm with hm | hm
                · exact Or.inl (by simp [hm])
                · have hlen : rest.length ≤ m := by
                    simp only [List.length_cons] at hl; omega
                  rcases ih rest c hlen hm with h | h
                  · exact Or.inl (by simp [h])
                  · exact Or.inr h
          · rw [protectPara_cons_ne ha] at hm
            rcases List.mem_cons.1 hm with hm | hm
            · exact Or.inl (by simp [hm])
            · have hlen : rest.length ≤ m := by
                simp only [List.length_cons] at hl; omega
              rcases ih rest c hlen hm with h | h
              · exact Or.inl (by simp [h])
              · exact Or.inr h

theorem joinWordNlF_id : ∀ n l, '\n' ∉ l → joinWordNlF n l = l := by
  intro n
  induction n with
  | zero => intro l _; rfl
  | succ m ih =>
      intro l h
      cases l with
      | nil => rfl
      | cons c rest =>
          have e : joinWordNlF (Nat.succ m) (c :: rest) =
              c :: joinWordNlF m rest := by
            have hh : rest.head? ≠ Option.some '\n' := by
              cases rest with
              | nil => simp
              | cons d r2 =>
                  simp only [List.head?_cons]
                  intro hd
                  exact h (by simp [Option.some_inj.1 hd])
            rw [joinWordNlF.eq_def]
            split <;> simp_all
          rw [e, ih rest (fun hm => h (by simp [hm]))]

theorem rmBackslashF_id : ∀ n l, '\\' ∉ l → rmBackslashF n l = l := by
  intro n
  induction n with
  | zero => intro l _; rfl
  | succ m ih =>
      intro l h
      cases l with
      | nil => rfl
      | cons c rest =>
          have hb : ¬(c = '\\') := fun hc => h (by simp [hc])
          have hrest : '\\' ∉ rest := fun hm => h (by simp [hm])
          rw [show rmBackslashF (Nat.succ m) (c :: rest) =
              (if c = '\\' then rmBackslashF m (rest.dropWhile pSpace)
               else if pSpace c then
                 match rest.dropWhile pSpace with
                 | d :: r2 =>
                     if d = '\\' then rmBackslashF m (r2.dropWhile pSpace)
                     else (c :: rest.takeWhile pSpace) ++
                       rmBackslashF m (rest.dropWhile pSpace)
                 | [] => c :: rest
               else c :: rmBackslashF m rest) from rfl]
          rw [if_neg hb]
          by_cases hs : pSpace c = true
          · rw [if_pos hs]
            cases hdw : rest.dropWhile pSpace with
            | nil => rfl
            | cons d r2 =>
                have hdmem : d ∈ rest := by
                  have : d ∈ rest.dropWhile pSpace := by simp [hdw]
                  exact (List.dropWhile_sublist pSpace).mem this
                have hd : ¬(d = '\\') := fun he => hrest (by rw [← he]; exact hdmem)
                show (if d = '\\' then rmBackslashF m (r2.dropWhile pSpace)
                  else (c :: rest.takeWhile pSpace) ++ rmBackslashF m (d :: r2)) =
                  c :: rest
                rw [if_neg hd]
                have hsub : '\\' ∉ rest.dropWhile pSpace := fun hm =>
                  hrest ((List.dropWhile_sublist pSpace).mem hm)
                rw [hdw] at hsub
                rw [ih (d :: r2) hsub, ← hdw]
                rw [List.cons_append, List.takeWhile_append_dropWhile]
          · rw [if_neg hs, ih rest hrest]

theorem restorePara_cons_ne {c : Char} {rest : List Char} (h : ¬(c = '<')) :
    restorePara (c :: rest) = c :: restorePara rest := by
  rw [restorePara.eq_def]
  split <;> simp_all

theorem restorePara_PARA (u : List Char) :
    restorePara (PARA ++ u) = '\n' :: '\n' :: restorePara u := rfl

theorem restorePara_protectPara : ∀ n l, l.length ≤ n → nlRuns l = true →
    '<' ∉ l → restorePara (protectPara l) = l := by
  intro n
  induction n with
  | zero =>
      intro l hl _ _
      rw [List.length_eq_zero.1 (Nat.le_zero.1 hl)]
      rfl
  | succ m ih =>
      intro l hl hnl hlt
      cases l with
      | nil => rfl
      | cons c rest =>
          by_cases hc : c = '\n'
          · subst hc
            obtain ⟨rest2, rfl, h2, _⟩ := nlRuns_pair hnl
            rw [show protectPara ('\n' :: '\n' :: rest2) =
                PARA ++ protectPara rest2 from rfl]
            rw [restorePara_PARA]
            have hlen : rest2.length ≤ m := by
              simp only [List.length_cons] at hl; omega
            rw [ih rest2 hlen h2 (fun hm => hlt (by simp [hm]))]
          · rw [protectPara_cons_ne hc]
            rw [restorePara_cons_ne (fun he => hlt (by simp [he]))]
            have hlen : rest.length ≤ m := by
              simp only [List.length_cons] at hl; omega
            rw [ih rest hlen (by rwa [nlRuns_cons_ne hc] at hnl)
              (fun hm => hlt (by simp [hm]))]

theorem paraBlock_id (l : List Char) (hnl : nlRuns l = true)
    (hlt : '<' ∉ l) (hbs : '\\' ∉ l) :
    restorePara (nlToSpace (rmBackslash (joinWordNl (protectPara l)))) = l := by
  have hnn : '\n' ∉ protectPara l :=
    protectPara_no_nl l.length l (le_refl _) hnl
  have hbs2 : '\\' ∉ protectPara l := by
    intro hm
    rcases mem_protectPara l.length l '\\' (le_refl _) hm with h | h
    · exact hbs h
    · revert h; decide
  unfold joinWordNl
  rw [joinWordNlF_id _ _ hnn]
  unfold rmBackslash
  rw [rmBackslashF_id _ _ hbs2]
  rw [nlToSpace_id _ hnn]
  exact restorePara_protectPara l.length l (le_refl _) hnl hlt

theorem nf_space_next {rest : List Char}
    (hall : (' ' :: rest).all nfCharOk = true)
    (hwin : winOk (' ' :: rest) = true) :
    rest = [] ∨ ∃ d r2, rest = d :: r2 ∧ pSpace d = false := by
  cases rest with
  | nil => exact Or.inl rfl
  | cons d r2 =>
      refine Or.inr ⟨d, r2, rfl, ?_⟩
      have hw := (winOk_cons hwin).1
      by_contra hp
      simp only [Bool.not_eq_false] at hp
      have hd := List.all_eq_true.1 hall d (by simp)
      rcases nfCharOk_ws hd hp with h1 | h1 <;> subst h1 <;>
        simp [windowCond, spTab] at hw

theorem nf_after_pair {rest2 : List Char}
    (hall : rest2.all nfCharOk = true)
    (hwin : winOk ('\n' :: rest2) = true)
    (hhd : rest2.head? ≠ Option.some '\n') :
    rest2 = [] ∨ ∃ d r3, rest2 = d :: r3 ∧ pSpace d = false := by
  cases rest2 with
  | nil => exact Or.inl rfl
  | cons d r3 =>
      refine Or.inr ⟨d, r3, rfl, ?_⟩
      have hw := (winOk_cons hwin).1
      by_contra hp
      simp only [Bool.not_eq_false] at hp
      have hd := List.all_eq_true.1 hall d (by simp)
      rcases nfCharOk_ws hd hp with h1 | h1
      · subst h1; simp [windowCond] at hw
      · subst h1; simp at hhd

theorem all_tail {c : Char} {rest : List Char}
    (h : (c :: rest).all nfCharOk = true) : rest.all nfCharOk = true := by
  rw [List.all_cons, Bool.and_eq_true] at h
  exact h.2

theorem collapseSpF_id : ∀ n l, l.all nfCharOk = true → winOk l = true →
    collapseSpF n l = l := by
  intro n
  induction n with
  | zero => intro l _ _; rfl
  | succ m ih =>
      intro l hall hwin
      match l with
      | [] => rfl
      | [a] => rfl
      | a :: b :: rest =>
          have hpair : (spTab a && spTab b) = false := by
            by_contra hp
            simp only [Bool.not_eq_false, Bool.and_eq_true] at hp
            have hw := (winOk_cons hwin).1
            simp [windowCond, hp.1, hp.2] at hw
          show (if spTab a && spTab b then
              ' ' :: collapseSpF m ((b :: rest).dropWhile spTab)
            else a :: collapseSpF m (b :: rest)) = a :: b :: rest
          rw [if_neg (by simp [hpair])]
          rw [ih (b :: rest) (all_tail hall) (winOk_cons hwin).2]

theorem rmWsPunctF_ws {m : Nat} {c p : Char} {rest r2 : List Char}
    (hs : pSpace c = true) (hdw : rest.dropWhile pSpace = p :: r2)
    (hp : punct1 p = false) :
    rmWsPunctF (Nat.succ m) (c :: rest) =
      (c :: rest.takeWhile pSpace) ++ rmWsPunctF m (p :: r2) := by
  conv_lhs => rw [rmWsPunctF.eq_def]
  simp [hs, hdw, hp]

theorem rmWsPunctF_ws_nil {m : Nat} {c : Char} {rest : List Char}
    (hs : pSpace c = true) (hdw : rest.dropWhile pSpace = []) :
    rmWsPunctF (Nat.succ m) (c :: rest) = c :: rest := by
  conv_lhs => rw [rmWsPunctF.eq_def]
  simp [hs, hdw]

theorem rmWsPunctF_nonws {m : Nat} {c : Char} {rest : List Char}
    (hs : pSpace c = false) :
    rmWsPunctF (Nat.succ m) (c :: rest) = c :: rmWsPunctF m rest := by
  conv_lhs => rw [rmWsPunctF.eq_def]
  simp [hs]

theorem rmWsPunctF_id : ∀ n l, l.all nfCharOk = true → winOk l = true →
    nlRuns l = true → rmWsPunctF n l = l := by
  intro n
  induction n with
  | zero => intro l _ _ _; rfl
  | succ m ih =>
      intro l hall hwin hnl
      cases l with
      | nil => rfl
      | cons c rest =>
          by_cases hs : pSpace c = true
          · have hc0 := List.all_eq_true.1 hall c (by simp)
            rcases nfCharOk_ws hc0 hs with hc | hc
            · subst hc
              rcases nf_space_next hall hwin with hre | ⟨d, r2, hre, hnd⟩
              · subst hre; rfl
              · subst hre
                have hdw : (d :: r2).dropWhile pSpace = d :: r2 :=
                  List.dropWhile_cons_of_neg (by simp [hnd])
                have hpd : punct1 d = false := by
                  by_contra hpp
                  simp only [Bool.not_eq_false] at hpp
                  have hw := (winOk_cons hwin).1
                  simp [windowCond, hpp, show pSpace ' ' = true from rfl] at hw
                rw [rmWsPunctF_ws hs hdw hpd]
                rw [List.takeWhile_cons_of_neg (by simp [hnd])]
                rw [ih (d :: r2) (all_tail hall) (winOk_cons hwin).2
                  (by rwa [nlRuns_cons_ne (by decide)] at hnl)]
                rfl
            · subst hc
              obtain ⟨rest2, hre, h2, h3⟩ := nlRuns_pair hnl
              subst hre
              have hallt : ('\n' :: rest2).all nfCharOk = true := all_tail hall
              have hwint : winOk ('\n' :: rest2) = true := (winOk_cons hwin).2
              rcases nf_after_pair (all_tail hallt) hwint h3 with hre2 | ⟨e, r3, hre2, hne⟩
              · subst hre2; rfl
              · subst hre2
                have hdw : (('\n' : Char) :: e :: r3).dropWhile pSpace = e :: r3 := by
                  rw [List.dropWhile_cons_of_pos (by decide)]
                  exact List.dropWhile_cons_of_neg (by simp [hne])
                have hpe : punct1 e = false := by
                  by_contra hpp
                  simp only [Bool.not_eq_false] at hpp
                  have hw := (winOk_cons hwint).1
                  simp [windowCond, hpp, show pSpace '\n' = true from rfl] at hw
                rw [rmWsPunctF_ws hs hdw hpe]
                rw [show (('\n' : Char) :: e :: r3).takeWhile pSpace = ['\n'] from by
                  rw [List.takeWhile_cons_of_pos (by decide)]
                  rw [List.takeWhile_cons_of_neg (by simp [hne])]]
                rw [ih (e :: r3) (all_tail hallt) (winOk_cons hwint).2 h2]
                rfl
          · simp only [Bool.not_eq_true] at hs
            rw [rmWsPunctF_nonws hs]
            have hcnl : ¬(c = '\n') := by
              rintro rfl; revert hs; decide
            rw [ih rest (all_tail hall) (winOk_cons hwin).2
              (by rwa [nlRuns_cons_ne hcnl] at hnl)]

theorem rmWsParenF_ws {m : Nat} {c p : Char} {rest r2 : List Char}
    (hs : pSpace c = true) (hdw : rest.dropWhile pSpace = p :: r2)
    (hp : ¬(p = ')')) :
    rmWsParenF (Nat.succ m) (c :: rest) =
      (c :: rest.takeWhile pSpace) ++ rmWsParenF m (p :: r2) := by
  conv_lhs => rw [rmWsParenF.eq_def]
  simp [hs, hdw, hp]

theorem rmWsParenF_ws_nil {m : Nat} {c : Char} {rest : List Char}
    (hs : pSpace c = true) (hdw : rest.dropWhile pSpace = []) :
    rmWsParenF (Nat.succ m) (c :: rest) = c :: rest := by
  conv_lhs => rw [rmWsParenF.eq_def]
  simp [hs, hdw]

theorem rmWsParenF_nonws {m : Nat} {c : Char} {rest : List Char}
    (hs : pSpace c = false) :
    rmWsParenF (Nat.succ m) (c :: rest) = c :: rmWsParenF m rest := by
  conv_lhs => rw [rmWsParenF.eq_def]
  simp [hs]

theorem rmWsParenF_id : ∀ n l, l.all nfCharOk = true → winOk l = true →
    nlRuns l = true → rmWsParenF n l = l := by
  intro n
  induction n with
  | zero => intro l _ _ _; rfl
  | succ m ih =>
      intro l hall hwin hnl
      cases l with
      | nil => rfl
      | cons c rest =>
          by_cases hs : pSpace c = true
          · have hc0 := List.all_eq_true.1 hall c (by simp)
            rcases nfCharOk_ws hc0 hs with hc | hc
            · subst hc
              rcases nf_space_next hall hwin with hre | ⟨d, r2, hre, hnd⟩
              · subst hre; rfl
              · subst hre
                have hdw : (d :: r2).dropWhile pSpace = d :: r2 :=
                  List.dropWhile_cons_of_neg (by simp [hnd])
                have hpd : ¬(d = ')') := by
                  rintro rfl
                  have hw := (winOk_cons hwin).1
                  simp [windowCond, show pSpace ' ' = true from rfl] at hw
                rw [rmWsParenF_ws hs hdw hpd]
                rw [List.takeWhile_cons_of_neg (by simp [hnd])]
                rw [ih (d :: r2) (all_tail hall) (winOk_cons hwin).2
                  (by rwa [nlRuns_cons_ne (by decide)] at hnl)]
                rfl
            · subst hc
              obtain ⟨rest2, hre, h2, h3⟩ := nlRuns_pair hnl
              subst hre
              have hallt : ('\n' :: rest2).all nfCharOk = true := all_tail hall
              have hwint : winOk ('\n' :: rest2) = true := (winOk_cons hwin).2
              rcases nf_after_pair (all_tail hallt) hwint h3 with hre2 | ⟨e, r3, hre2, hne⟩
              · subst hre2; rfl
              · subst hre2
                have hdw : (('\n' : Char) :: e :: r3).dropWhile pSpace = e :: r3 := by
                  rw [List.dropWhile_cons_of_pos (by decide)]
                  exact List.dropWhile_cons_of_neg (by simp [hne])
                have hpe : ¬(e = ')') := by
                  rintro rfl
                  have hw := (winOk_cons hwint).1
                  simp [windowCond, show pSpace '\n' = true from rfl] at hw
                rw [rmWsParenF_ws hs hdw hpe]
                rw [show (('\n' : Char) :: e :: r3).takeWhile pSpace = ['\n'] from by
                  rw [List.takeWhile_cons_of_pos (by decide)]
                  rw [List.takeWhile_cons_of_neg (by simp [hne])]]
                rw [ih (e :: r3) (all_tail hallt) (winOk_cons hwint).2 h2]
                rfl
          · simp only [Bool.not_eq_true] at hs
            rw [rmWsParenF_nonws hs]
            have hcnl : ¬(c = '\n') := by
              rintro rfl; revert hs; decide
            rw [ih rest (all_tail hall) (winOk_cons hwin).2
              (by rwa [nlRuns_cons_ne hcnl] at hnl)]

theorem rmParenWsF_id : ∀ n l, winOk l = true → rmParenWsF n l = l := by
  intro n
  induction n with
  | zero => intro l _; rfl
  | succ m ih =>
      intro l hwin
      cases l with
      | nil => rfl
      | cons c rest =>
          by_cases hc : c = '('
          · subst hc
            cases rest with
            | nil => rfl
            | cons d r2 =>
                have hnd : pSpace d = false := by
                  by_contra hp
                  simp only [Bool.not_eq_false] at hp
                  have hw := (winOk_cons hwin).1
                  simp [windowCond, hp] at hw
                rw [show rmParenWsF (Nat.succ m) ('(' :: d :: r2) =
                    '(' :: rmParenWsF m (d :: r2) from by
                  conv_lhs => rw [rmParenWsF.eq_def]
                  simp [hnd]]
                rw [ih (d :: r2) (winOk_cons hwin).2]
          · rw [show rmParenWsF (Nat.succ m) (c :: rest) =
                c :: rmParenWsF m rest from by
              conv_lhs => rw [rmParenWsF.eq_def]
              simp [hc]]
            rw [ih rest (winOk_cons hwin).2]

theorem fixRDollar_cons_ne {c : Char} {rest : List Char}
    (h : ¬(c = 'R' ∧ ∃ r2, rest = ' ' :: '$' :: r2)) :
    fixRDollar (c :: rest) = c :: fixRDollar rest := by
  rw [fixRDollar.eq_def]
  split
  · rename_i x r2 heq
    exfalso
    obtain ⟨rfl, rfl⟩ : c = 'R' ∧ rest = ' ' :: '$' :: r2 := by
      simpa using heq
    exact h ⟨rfl, r2, rfl⟩
  · rename_i x a r hno heq
    obtain ⟨rfl, rfl⟩ : c = a ∧ rest = r := by simpa using heq
    rfl
  · rename_i x heq
    exact absurd heq (by simp)

theorem fixRDollar_id (l : List Char) (hwin : winOk l = true) :
    fixRDollar l = l := by
  induction l with
  | nil => rfl
  | cons c rest ih =>
      have hne : ¬(c = 'R' ∧ ∃ r2, rest = ' ' :: '$' :: r2) := by
        rintro ⟨rfl, r2, rfl⟩
        have hw := (winOk_cons hwin).1
        simp [windowCond, pSpace, spTab, punct1] at hw
      rw [fixRDollar_cons_ne hne, ih (winOk_cons hwin).2]

theorem fixCurrencyF_nil (m : Nat) : fixCurrencyF m [] = [] := by
  cases m <;> rfl

theorem fixCurrencyF_RD_sp {m : Nat} {d : Char} {r3 : List Char}
    (hd : pSpace d = true) :
    fixCurrencyF (Nat.succ m) ('R' :: '$' :: d :: r3) =
      'R' :: '$' :: ' ' :: fixCurrencyF m ((d :: r3).dropWhile pSpace) := by
  conv_lhs => rw [fixCurrencyF.eq_def]
  simp [hd]

theorem fixCurrencyF_RD_nsp {m : Nat} {d : Char} {r3 : List Char}
    (hd : pSpace d = false) :
    fixCurrencyF (Nat.succ m) ('R' :: '$' :: d :: r3) =
      'R' :: '$' :: fixCurrencyF m (d :: r3) := by
  conv_lhs => rw [fixCurrencyF.eq_def]
  simp [hd]

theorem fixCurrencyF_cons_ne {m : Nat} {c : Char} {rest : List Char}
    (h : ¬(c = 'R' ∧ ∃ r2, rest = '$' :: r2)) :
    fixCurrencyF (Nat.succ m) (c :: rest) = c :: fixCurrencyF m rest := by
  rw [fixCurrencyF.eq_def]
  split
  · rename_i x1 x2 heq
    exact absurd heq (by simp)
  · rename_i x1 x2 n r2 heq1 heq2
    exfalso
    obtain ⟨rfl, rfl⟩ : c = 'R' ∧ rest = '$' :: r2 := by simpa using heq2
    exact h ⟨rfl, r2, rfl⟩
  · rename_i x1 x2 n a r hno heq1 heq2
    have hnm : n = m := (Nat.succ_injective heq1).symm
    subst hnm
    obtain ⟨rfl, rfl⟩ : c = a ∧ rest = r := by simpa using heq2
    rfl
  · rename_i x1 x2 n heq1 heq2
    exact absurd heq2 (by simp)

theorem fixCurrencyF_id : ∀ n l, l.all nfCharOk = true → winOk l = true →
    fixCurrencyF n l = l := by
  intro n
  induction n with
  | zero => intro l _ _; rfl
  | succ m ih =>
      intro l hall hwin
      by_cases hRD : ∃ r2, l = 'R' :: '$' :: r2
      · obtain ⟨r2, rfl⟩ := hRD
        cases r2 with
        | nil => rfl
        | cons d r3 =>
            by_cases hd : pSpace d = true
            · have hdn : ¬(d = '\n') := by
                rintro rfl
                have hw := (winOk_cons hwin).1
                simp [windowCond, pSpace, spTab, punct1] at hw
              have hd' : d = ' ' := by
                have hcd := List.all_eq_true.1 hall d (by simp)
                rcases nfCharOk_ws hcd hd with h1 | h1
                · exact h1
                · exact absurd h1 hdn
              subst hd'
              rw [fixCurrencyF_RD_sp hd]
              have hall2 : (' ' :: r3).all nfCharOk = true :=
                all_tail (all_tail hall)
              have hwin2 : winOk (' ' :: r3) = true :=
                (winOk_cons (winOk_cons hwin).2).2
              rcases nf_space_next hall2 hwin2 with hre | ⟨e, r4, hre, hne⟩
              · subst hre
                rw [show ((' ' :: ([] : List Char)).dropWhile pSpace) =
                    ([] : List Char) from by decide]
                rw [fixCurrencyF_nil]
              · subst hre
                rw [show ((' ' :: e :: r4).dropWhile pSpace) = e :: r4 from by
                  rw [List.dropWhile_cons_of_pos (by decide)]
                  exact List.dropWhile_cons_of_neg (by simp [hne])]
                rw [ih (e :: r4) (all_tail hall2) (winOk_cons hwin2).2]
            · simp only [Bool.not_eq_true] at hd
              rw [fixCurrencyF_RD_nsp hd]
              rw [ih (d :: r3) (all_tail (all_tail hall))
                (winOk_cons (winOk_cons hwin).2).2]
      · push_neg at hRD
        cases l with
        | nil => rfl
        | cons c rest =>
            rw [fixCurrencyF_cons_ne (by
                rintro ⟨rfl, r2, rfl⟩
                exact hRD r2 rfl)]
            rw [ih rest (all_tail hall) (winOk_cons hwin).2]

theorem dropWhile_punct_head : ∀ l : List Char, winOk l = true →
    ∀ p r2, punct1 p = true → l.dropWhile pSpace = p :: r2 → l = p :: r2 := by
  intro l
  induction l with
  | nil => intro _ p r2 _ h; simp at h
  | cons e r ih =>
      intro hwin p r2 hp h
      by_cases he : pSpace e = true
      · rw [List.dropWhile_cons_of_pos (by simp [he])] at h
        have hr := ih (winOk_cons hwin).2 p r2 hp h
        subst hr
        exfalso
        have hw := (winOk_cons hwin).1
        simp [windowCond, he, hp] at hw
      · rw [List.dropWhile_cons_of_neg (by simp [he])] at h
        exact h

theorem fixDecimalF_nondigit {n : Nat} {c : Char} {rest : List Char}
    (hc : c.isDigit = false) :
    fixDecimalF (Nat.succ n) (c :: rest) = c :: fixDecimalF n rest := by
  conv_lhs => rw [fixDecimalF.eq_def]
  simp [hc]

theorem fixDecimalF_ws_nil {n : Nat} {c : Char} {rest : List Char}
    (hc : c.isDigit = true) (hdw : rest.dropWhile pSpace = []) :
    fixDecimalF (Nat.succ n) (c :: rest) = c :: fixDecimalF n rest := by
  conv_lhs => rw [fixDecimalF.eq_def]
  simp [hc, hdw]

theorem fixDecimalF_nocomma {n : Nat} {c p : Char} {rest r2 : List Char}
    (hc : c.isDigit = true) (hdw : rest.dropWhile pSpace = p :: r2)
    (hp : ¬(p = ',')) :
    fixDecimalF (Nat.succ n) (c :: rest) = c :: fixDecimalF n rest := by
  conv_lhs => rw [fixDecimalF.eq_def]
  simp [hc, hdw, hp]

theorem fixDecimalF_comma_nil {n : Nat} {c : Char} {r2 : List Char}
    (hc : c.isDigit = true) (h2 : r2.dropWhile pSpace = []) :
    fixDecimalF (Nat.succ n) (c :: ',' :: r2) =
      c :: fixDecimalF n (',' :: r2) := by
  have hd : ((',' :: r2) : List Char).dropWhile pSpace = ',' :: r2 :=
    List.dropWhile_cons_of_neg (by decide)
  conv_lhs => rw [fixDecimalF.eq_def]
  simp [hc, hd, h2]

theorem fixDecimalF_comma_nd {n : Nat} {c d1 : Char} {r2 r3 : List Char}
    (hc : c.isDigit = true) (h2 : r2.dropWhile pSpace = d1 :: r3)
    (hd1 : d1.isDigit = false) :
    fixDecimalF (Nat.succ n) (c :: ',' :: r2) =
      c :: fixDecimalF n (',' :: r2) := by
  have hd : ((',' :: r2) : List Char).dropWhile pSpace = ',' :: r2 :=
    List.dropWhile_cons_of_neg (by decide)
  conv_lhs => rw [fixDecimalF.eq_def]
  simp [hc, hd, h2, hd1]

theorem fixDecimalF_d3 {n : Nat} {c d1 : Char}
    (hc : c.isDigit = true) (hd1s : pSpace d1 = false)
    (hd1 : d1.isDigit = true) :
    fixDecimalF (Nat.succ n) (c :: ',' :: d1 :: []) =
      c :: ',' :: d1 :: [] := by
  have hdA : ((',' :: d1 :: []) : List Char).dropWhile pSpace =
      ',' :: d1 :: [] := List.dropWhile_cons_of_neg (by decide)
  have hdB : ((d1 :: []) : List Char).dropWhile pSpace = d1 :: [] :=
    List.dropWhile_cons_of_neg (by simp [hd1s])
  conv_lhs => rw [fixDecimalF.eq_def]
  simp [hc, hdA, hdB, hd1]

theorem fixDecimalF_d4 {n : Nat} {c d1 d2 : Char} {r4 : List Char}
    (hc : c.isDigit = true) (hd1s : pSpace d1 = false)
    (hd1 : d1.isDigit = true) (hd2 : d2.isDigit = true) :
    fixDecimalF (Nat.succ n) (c :: ',' :: d1 :: d2 :: r4) =
      c :: ',' :: d1 :: d2 :: fixDecimalF n r4 := by
  have hdA : ((',' :: d1 :: d2 :: r4) : List Char).dropWhile pSpace =
      ',' :: d1 :: d2 :: r4 := List.dropWhile_cons_of_neg (by decide)
  have hdB : ((d1 :: d2 :: r4) : List Char).dropWhile pSpace =
      d1 :: d2 :: r4 := List.dropWhile_cons_of_neg (by simp [hd1s])
  conv_lhs => rw [fixDecimalF.eq_def]
  simp [hc, hdA, hdB, hd1, hd2]

theorem fixDecimalF_d5 {n : Nat} {c d1 d2 : Char} {r4 : List Char}
    (hc : c.isDigit = true) (hd1s : pSpace d1 = false)
    (hd1 : d1.isDigit = true) (hd2 : d2.isDigit = false) :
    fixDecimalF (Nat.succ n) (c :: ',' :: d1 :: d2 :: r4) =
      c :: ',' :: d1 :: fixDecimalF n (d2 :: r4) := by
  have hdA : ((',' :: d1 :: d2 :: r4) : List Char).dropWhile pSpace =
      ',' :: d1 :: d2 :: r4 := List.dropWhile_cons_of_neg (by decide)
  have hdB : ((d1 :: d2 :: r4) : List Char).dropWhile pSpace =
      d1 :: d2 :: r4 := List.dropWhile_cons_of_neg (by simp [hd1s])
  conv_lhs => rw [fixDecimalF.eq_def]
  simp [hc, hdA, hdB, hd1, hd2]

theorem fixDecimalF_id : ∀ n l, l.all nfCharOk = true → winOk l = true →
    fixDecimalF n l = l := by
  intro n
  induction n with
  | zero => intro l _ _; rfl
  | succ m ih =>
      intro l hall hwin
      cases l with
      | nil => rfl
      | cons c rest =>
          by_cases hc : c.isDigit = true
          · cases hdw : rest.dropWhile pSpace with
            | nil =>
                rw [fixDecimalF_ws_nil hc hdw,
                  ih rest (all_tail hall) (winOk_cons hwin).2]
            | cons p r2 =>
                by_cases hp : p = ','
                · subst hp
                  have hre : rest = ',' :: r2 :=
                    dropWhile_punct_head rest (winOk_cons hwin).2 ',' r2
                      (by decide) hdw
                  subst hre
                  cases r2 with
                  | nil =>
                      rw [fixDecimalF_comma_nil hc (by decide)]
                      rw [ih (',' :: []) (all_tail hall) (winOk_cons hwin).2]
                  | cons e r3 =>
                      by_cases hes : pSpace e = true
                      · have hen : ¬(e = '\n') := by
                          rintro rfl
                          have hw := (winOk_cons hwin).1
                          simp [windowCond, pSpace, spTab, punct1, hc] at hw
                        have he' : e = ' ' := by
                          have hce := List.all_eq_true.1 hall e (by simp)
                          rcases nfCharOk_ws hce hes with h1 | h1
                          · exact h1
                          · exact absurd h1 hen
                        subst he'
                        have hall3 : (' ' :: r3).all nfCharOk = true :=
                          all_tail (all_tail hall)
                        have hwin3 : winOk (' ' :: r3) = true :=
                          (winOk_cons (winOk_cons hwin).2).2
                        rcases nf_space_next hall3 hwin3 with hre3 | ⟨f, r4, hre3, hnf⟩
                        · subst hre3
                          rw [fixDecimalF_comma_nil hc (by decide)]
                          rw [ih (',' :: ' ' :: []) (all_tail hall)
                            (winOk_cons hwin).2]
                        · subst hre3
                          have hfd : f.isDigit = false := by
                            by_contra hff
                            simp only [Bool.not_eq_false] at hff
                            have hw := (winOk_cons hwin).1
                            simp [windowCond, pSpace, spTab, punct1, hc, hff] at hw
                          rw [fixDecimalF_comma_nd hc
                            (show ((' ' :: f :: r4) : List Char).dropWhile pSpace =
                                f :: r4 from by
                              rw [List.dropWhile_cons_of_pos (by decide)]
                              exact List.dropWhile_cons_of_neg (by simp [hnf]))
                            hfd]
                          rw [ih (',' :: ' ' :: f :: r4) (all_tail hall)
                            (winOk_cons hwin).2]
                      · simp only [Bool.not_eq_true] at hes
                        by_cases hed : e.isDigit = true
                        · cases r3 with
                          | nil => exact fixDecimalF_d3 hc hes hed
                          | cons d2 r4 =>
                              by_cases hd2 : d2.isDigit = true
                              · rw [fixDecimalF_d4 hc hes hed hd2]
                                rw [ih r4
                                  (all_tail (all_tail (all_tail (all_tail hall))))
                                  (winOk_cons (winOk_cons (winOk_cons
                                    (winOk_cons hwin).2).2).2).2]
                              · simp only [Bool.not_eq_true] at hd2
                                rw [fixDecimalF_d5 hc hes hed hd2]
                                rw [ih (d2 :: r4)
                                  (all_tail (all_tail (all_tail hall)))
                                  (winOk_cons (winOk_cons
                                    (winOk_cons hwin).2).2).2]
                        · simp only [Bool.not_eq_true] at hed
                          rw [fixDecimalF_comma_nd hc
                            (List.dropWhile_cons_of_neg (by simp [hes])) hed]
                          rw [ih (',' :: e :: r3) (all_tail hall)
                            (winOk_cons hwin).2]
                · rw [fixDecimalF_nocomma hc hdw hp,
                    ih rest (all_tail hall) (winOk_cons hwin).2]
          · simp only [Bool.not_eq_true] at hc
            rw [fixDecimalF_nondigit hc,
              ih rest (all_tail hall) (winOk_cons hwin).2]

theorem sanitizePipeline_id (l : List Char) (h : sanitizedNF l = true) :
    sanitizePipeline l = l := by
  have h5 := h
  simp only [sanitizedNF, Bool.and_eq_true] at h5
  obtain ⟨⟨⟨⟨hall, hnl⟩, hwin⟩, hedge⟩, hline⟩ := h5
  have hcr : '\r' ∉ l := nf_no_char l hall '\r' (by decide)
  have htab : '\t' ∉ l := nf_no_char l hall '\t' (by decide)
  have hbs : '\\' ∉ l := nf_no_char l hall '\\' (by decide)
  have hlt : '<' ∉ l := nf_no_char l hall '<' (by decide)
  unfold sanitizePipeline
  rw [nlNorm_id l hcr, charFilter_id l hall, lineStage_id l hline,
    collapseNl_id l hnl, stripWs_id l hedge, tabToSpace_id l htab]
  rw [paraBlock_id l hnl hlt hbs]
  unfold collapseSp
  rw [collapseSpF_id l.length l hall hwin]
  unfold rmWsPunct
  rw [rmWsPunctF_id l.length l hall hwin hnl]
  unfold rmParenWs
  rw [rmParenWsF_id l.length l hwin]
  unfold rmWsParen
  rw [rmWsParenF_id l.length l hall hwin hnl]
  rw [fixRDollar_id l hwin]
  unfold fixCurrency
  rw [fixCurrencyF_id l.length l hall hwin]
  unfold fixDecimal
  rw [fixDecimalF_id l.length l hall hwin]
  rw [stripWs_id l hedge]

/-- C7 (amended): the sanitizer is idempotent on sanitized-normal-form
inputs.  On a string whose characters, whitespace runs, local windows,
edges and lines are already in the sanitizer's normal form, one
application of main._sanitize_analysis is the identity, hence applying
the sanitizer twice yields the same result as applying it once. -/
theorem C7_sanitize_idempotent_on_nf (s : String)
    (h : sanitizedNF s.data = true) :
    _sanitize_analysis (_sanitize_analysis s) = _sanitize_analysis s := by
  have hfix : _sanitize_analysis s = s := by
    unfold _sanitize_analysis
    by_cases he : s = ""
    · simp [he]
    · rw [if_neg he, sanitizePipeline_id s.data h]
  simp only [hfix]

/-- C7 counterexample to the original claim: on the input "- - x" the
sanitizer strips only the first leading bullet marker, so a second
application changes the result again and sanitize(sanitize(s)) differs
from sanitize(s). -/
theorem C7_counterexample :
    _sanitize_analysis (_sanitize_analysis (String.mk
        ['-', ' ', '-', ' ', 'x'])) ≠
      _sanitize_analysis (String.mk ['-', ' ', '-', ' ', 'x']) := by
  decide

/-- Witness for C7: a concrete sanitized-normal-form sentence satisfies
the normal-form predicate and the idempotence equation. -/
theorem C7_witness :
    sanitizedNF ("Campanha A teve ROAS 2,41 e CPC de R$ 1,23 hoje.\n\nSegue o plano." : String).data = true ∧
      _sanitize_analysis (_sanitize_analysis
          "Campanha A teve ROAS 2,41 e CPC de R$ 1,23 hoje.\n\nSegue o plano.") =
        _sanitize_analysis
          "Campanha A teve ROAS 2,41 e CPC de R$ 1,23 hoje.\n\nSegue o plano." :=
  ⟨by decide, C7_sanitize_idempotent_on_nf
    "Campanha A teve ROAS 2,41 e CPC de R$ 1,23 hoje.\n\nSegue o plano." (by decide)⟩

end MetaAds
